import Mathlib

/-!
A shallow embedding of the WebRetriever (Vingester) control plane: the
configuration schema and sanitizer, the export/import pipeline, the instance
registry with its guarded lifecycle operations, persistence, the CPU telemetry
alert policy, the shutdown sequence and the media path handling, together with
theorems settling the specification claims about them.
-/

namespace Vingester

/-- JS runtime values as they occur in configuration records: strings, finite
decimal numbers (`num m e` denotes the number `m / 10 ^ e`), the IEEE NaN
value, booleans, `null`, and `undefined` (the value read from an absent
object property). -/
inductive Value where
  | str  (s : String)
  | num  (m : Int) (e : Nat)
  | nan
  | bool (b : Bool)
  | null
  | undef
deriving DecidableEq, Repr

/-- Declared field types of the configuration schema (`itype` / `etype`). -/
inductive FType where
  | string
  | number
  | boolean
deriving DecidableEq, Repr

/-- One field descriptor of the configuration schema: internal short name,
internal type, default value, exported type and external long name. -/
structure Field where
  iname : String
  itype : FType
  dflt  : Value
  etype : FType
  ename : String
deriving DecidableEq, Repr

/-- The static field schema (the `fields` array of the main process). -/
def fields : List Field := [
  ⟨"t",  .string,  .str "",            .string,  "BrowserTitle"⟩,
  ⟨"i",  .string,  .str "",            .string,  "BrowserInfo"⟩,
  ⟨"w",  .string,  .str "1280",        .number,  "BrowserWidth"⟩,
  ⟨"h",  .string,  .str "720",         .number,  "BrowserHeight"⟩,
  ⟨"c",  .string,  .str "transparent", .string,  "BrowserColor"⟩,
  ⟨"z",  .string,  .str "1.0",         .number,  "BrowserZoom"⟩,
  ⟨"H",  .boolean, .bool false,        .boolean, "BrowserTrust"⟩,
  ⟨"I",  .boolean, .bool false,        .boolean, "BrowserNodeAPI"⟩,
  ⟨"B",  .boolean, .bool false,        .boolean, "BrowserOBSDOM"⟩,
  ⟨"S",  .boolean, .bool false,        .boolean, "BrowserPersist"⟩,
  ⟨"ar", .boolean, .bool false,        .boolean, "AutoRefreshEnabled"⟩,
  ⟨"ai", .string,  .str "300",         .number,  "AutoRefreshInterval"⟩,
  ⟨"as", .boolean, .bool false,        .boolean, "InstanceAutoStart"⟩,
  ⟨"it", .string,  .str "url",         .string,  "InputType"⟩,
  ⟨"u",  .string,  .str "",            .string,  "InputURL"⟩,
  ⟨"if", .string,  .str "",            .string,  "InputFiles"⟩,
  ⟨"si", .string,  .str "5",           .number,  "SlideshowInterval"⟩,
  ⟨"sf", .string,  .str "1",           .number,  "SlideshowFade"⟩,
  ⟨"k",  .string,  .str "0",           .number,  "PatchDelay"⟩,
  ⟨"j",  .string,  .str "",            .string,  "PatchFrame"⟩,
  ⟨"g",  .string,  .str "inline",      .string,  "PatchStyleType"⟩,
  ⟨"q",  .string,  .str "",            .string,  "PatchStyleCode"⟩,
  ⟨"G",  .string,  .str "inline",      .string,  "PatchScriptType"⟩,
  ⟨"Q",  .string,  .str "",            .string,  "PatchScriptCode"⟩,
  ⟨"N",  .boolean, .bool false,        .boolean, "Output2Enabled"⟩,
  ⟨"f",  .string,  .str "30",          .number,  "Output2VideoFrameRate"⟩,
  ⟨"a",  .boolean, .bool false,        .boolean, "Output2VideoAdaptive"⟩,
  ⟨"O",  .string,  .str "0",           .number,  "Output2VideoDelay"⟩,
  ⟨"r",  .number,  .num 48000 0,       .number,  "Output2AudioSampleRate"⟩,
  ⟨"C",  .string,  .str "2",           .number,  "Output2AudioChannels"⟩,
  ⟨"o",  .string,  .str "0",           .number,  "Output2AudioDelay"⟩,
  ⟨"n",  .boolean, .bool true,         .boolean, "Output2SinkNDIEnabled"⟩,
  ⟨"v",  .boolean, .bool true,         .boolean, "Output2SinkNDIAlpha"⟩,
  ⟨"l",  .boolean, .bool false,        .boolean, "Output2SinkNDITallyReload"⟩,
  ⟨"m",  .boolean, .bool false,        .boolean, "Output2SinkFFmpegEnabled"⟩,
  ⟨"R",  .string,  .str "vbr",         .string,  "Output2SinkFFmpegMode"⟩,
  ⟨"F",  .string,  .str "matroska",    .string,  "Output2SinkFFmpegFormat"⟩,
  ⟨"M",  .string,  .str "",            .string,  "Output2SinkFFmpegOptions"⟩,
  ⟨"P",  .boolean, .bool false,        .boolean, "PreviewEnabled"⟩,
  ⟨"T",  .boolean, .bool false,        .boolean, "ConsoleEnabled"⟩,
  ⟨"E",  .boolean, .bool false,        .boolean, "DevToolsEnabled"⟩,
  ⟨"_",  .boolean, .bool false,        .boolean, "Collapsed"⟩ ]

/-- The fully retired legacy field names dropped unconditionally on import. -/
def legacyFields : List String := [
  "Output1Enabled", "Output1VideoPositionX", "Output1VideoPositionY",
  "Output1VideoDisplay", "Output1VideoPinTop", "Output1AudioDevice",
  "D", "x", "y", "d", "p", "A" ]

/-- The internal short names of the schema. -/
def inames : List String := fields.map (fun f => f.iname)

/-- A JS object, as an association list of properties in insertion order. -/
abbrev Obj := List (String × Value)

/-- Property read `o[k]`: the value of the first entry with key `k`. -/
def getv (o : Obj) (k : String) : Option Value :=
  (o.find? (fun p => p.1 == k)).map (fun p => p.2)

/-- Property write `o[k] = v`: update in place when the key is present,
append a new property otherwise (JS insertion order). -/
def setv (o : Obj) (k : String) (v : Value) : Obj :=
  if o.any (fun p => p.1 == k) then
    o.map (fun p => if p.1 == k then (k, v) else p)
  else o ++ [(k, v)]

/-- Property deletion `delete o[k]`. -/
def delv (o : Obj) (k : String) : Obj :=
  o.filter (fun p => !(p.1 == k))

/-- The key list `Object.keys(o)`. -/
def keysOf (o : Obj) : List String := o.map Prod.fst

/-- The defaulting pass of `sanitizeConfig`: for every schema field absent
from the record insert its default and count a change. -/
def fillDefaults (fs : List Field) (o : Obj) (n : Nat) : Obj × Nat :=
  match fs with
  | [] => (o, n)
  | f :: rest =>
    if getv o f.iname = none then fillDefaults rest (o ++ [(f.iname, f.dflt)]) (n + 1)
    else fillDefaults rest o n

/-- Whether a key survives the pruning pass: `id` is skipped and schema
internal names are retained. -/
def keepKey (k : String) : Bool :=
  k == "id" || fields.any (fun f => f.iname == k)

/-- The pruning pass of `sanitizeConfig`: every key of the snapshot `ks` that
is neither `id` nor a schema internal name is deleted and counted. -/
def pruneKeys (ks : List String) (o : Obj) (n : Nat) : Obj × Nat :=
  match ks with
  | [] => (o, n)
  | k :: rest =>
    if keepKey k then pruneKeys rest o n
    else pruneKeys rest (delv o k) (n + 1)

/-- The migration pass of `sanitizeConfig`: the removed `video` input type is
rewritten to `url` and counted as a change. -/
def migrateInput (o : Obj) : Obj × Nat :=
  if getv o "it" = some (.str "video") then (setv o "it" (.str "url"), 1) else (o, 0)

/-- `sanitizeConfig(browser)`: migrate the removed `video` input type to
`url`, fill missing fields with defaults, prune unknown keys (except `id`),
returning the record and the change count. -/
def sanitizeConfig (o : Obj) : Obj × Nat :=
  let s1 := migrateInput o
  let s2 := fillDefaults fields s1.1 s1.2
  pruneKeys (keysOf s2.1) s2.1 s2.2

example : (sanitizeConfig [("t", .str "Cam1"), ("junk", .num 1 0)]).2 = 42 := by decide

example :
    (sanitizeConfig (sanitizeConfig [("t", .str "Cam1"), ("junk", .num 1 0)]).1).2 = 0 := by
  decide

/-! ### Basic lemmas about object property access -/

@[simp] lemma getv_nil (k : String) : getv ([] : Obj) k = none := rfl

lemma getv_cons (k' : String) (v : Value) (o : Obj) (k : String) :
    getv ((k', v) :: o) k = if k' = k then some v else getv o k := by
  by_cases h : k' = k
  · simp [getv, List.find?, h]
  · have hb : (k' == k) = false := by simpa using h
    simp [getv, List.find?, hb, h]

lemma getv_append_of_some {o : Obj} {k : String} {v : Value} (o' : Obj)
    (h : getv o k = some v) : getv (o ++ o') k = some v := by
  induction o with
  | nil => simp at h
  | cons p o ih =>
    obtain ⟨k', v'⟩ := p
    rw [getv_cons] at h
    rw [List.cons_append, getv_cons]
    by_cases hk : k' = k
    · simpa [hk] using h
    · rw [if_neg hk] at h ⊢; exact ih h

lemma getv_append_of_none {o : Obj} {k : String} (o' : Obj)
    (h : getv o k = none) : getv (o ++ o') k = getv o' k := by
  induction o with
  | nil => simp
  | cons p o ih =>
    obtain ⟨k', v'⟩ := p
    rw [getv_cons] at h
    rw [List.cons_append, getv_cons]
    by_cases hk : k' = k
    · simp [hk] at h
    · rw [if_neg hk] at h ⊢; exact ih h

lemma mem_keysOf_iff {o : Obj} {k : String} : k ∈ keysOf o ↔ getv o k ≠ none := by
  induction o with
  | nil => simp [keysOf]
  | cons p o ih =>
    obtain ⟨k', v'⟩ := p
    rw [keysOf, List.map_cons, List.mem_cons, getv_cons]
    by_cases hk : k' = k
    · simp [hk]
    · simp only [if_neg hk]
      constructor
      · rintro (h | h)
        · exact absurd h.symm hk
        · exact (ih.mp h)
      · intro h; exact Or.inr (ih.mpr h)

lemma any_key_eq_isSome (o : Obj) (k : String) :
    (o.any (fun p => p.1 == k)) = (getv o k).isSome := by
  induction o with
  | nil => simp [getv]
  | cons p o ih =>
    obtain ⟨k', v'⟩ := p
    rw [List.any_cons, getv_cons]
    by_cases hk : k' = k <;> simp [hk, ih]

lemma keysOf_setv_of_present {o : Obj} {k : String} (v : Value)
    (h : getv o k ≠ none) : keysOf (setv o k v) = keysOf o := by
  rw [setv, if_pos]
  · rw [keysOf, keysOf, List.map_map]
    refine List.map_congr_left (fun p _ => ?_)
    by_cases hpk : p.1 = k
    · simp [Function.comp, hpk]
    · simp [Function.comp, hpk]
  · rw [any_key_eq_isSome]
    exact Option.isSome_iff_ne_none.mpr h

lemma getv_setv_self_of_present {o : Obj} {k : String} (v : Value)
    (h : getv o k ≠ none) : getv (setv o k v) k = some v := by
  rw [setv, if_pos]
  · induction o with
    | nil => simp at h
    | cons p o ih =>
      obtain ⟨k', v'⟩ := p
      rw [getv_cons] at h
      by_cases hk : k' = k
      · simp [hk, getv_cons]
      · rw [if_neg hk] at h
        simpa [hk, getv_cons] using ih h
  · rw [any_key_eq_isSome]
    exact Option.isSome_iff_ne_none.mpr h

/-! ### Lemmas about the defaulting pass -/

lemma fill_getv_of_some {fs : List Field} {o : Obj} {n : Nat} {k : String} {v : Value}
    (h : getv o k = some v) : getv (fillDefaults fs o n).1 k = some v := by
  induction fs generalizing o n with
  | nil => simpa [fillDefaults] using h
  | cons f rest ih =>
    rw [fillDefaults]
    split
    · exact ih (getv_append_of_some _ h)
    · exact ih h

lemma fill_getv_ne_none {fs : List Field} {o : Obj} {n : Nat} {f : Field}
    (hf : f ∈ fs) : getv (fillDefaults fs o n).1 f.iname ≠ none := by
  induction fs generalizing o n with
  | nil => simp at hf
  | cons g rest ih =>
    rw [fillDefaults]
    rcases List.mem_cons.mp hf with rfl | hf
    · split
      · rename_i hnone
        have : getv (o ++ [(f.iname, f.dflt)]) f.iname = some f.dflt := by
          rw [getv_append_of_none _ hnone, getv_cons, if_pos rfl]
        rw [fill_getv_of_some this]; simp
      · rename_i hsome
        obtain ⟨v, hv⟩ := Option.ne_none_iff_exists'.mp hsome
        rw [fill_getv_of_some hv]; simp
    · split <;> exact ih hf

lemma fill_keys_iff {fs : List Field} {o : Obj} {n : Nat} {k : String} :
    getv (fillDefaults fs o n).1 k ≠ none ↔
      getv o k ≠ none ∨ k ∈ fs.map (fun f => f.iname) := by
  induction fs generalizing o n with
  | nil => simp [fillDefaults]
  | cons f rest ih =>
    rw [fillDefaults]
    split
    · rename_i hnone
      rw [ih, List.map_cons, List.mem_cons]
      constructor
      · rintro (h | h)
        · by_cases hk : k = f.iname
          · exact Or.inr (Or.inl hk)
          · left
            intro hko
            rw [getv_append_of_none _ hko, getv_cons] at h
            rw [if_neg (fun hh => hk hh.symm)] at h
            simp at h
        · exact Or.inr (Or.inr h)
      · rintro (h | rfl | h)
        · left
          obtain ⟨v, hv⟩ := Option.ne_none_iff_exists'.mp h
          rw [getv_append_of_some _ hv]; simp
        · left
          rw [getv_append_of_none _ hnone, getv_cons, if_pos rfl]; simp
        · exact Or.inr h
    · rename_i hsome
      rw [ih, List.map_cons, List.mem_cons]
      constructor
      · rintro (h | h)
        · exact Or.inl h
        · exact Or.inr (Or.inr h)
      · rintro (h | rfl | h)
        · exact Or.inl h
        · exact Or.inl hsome
        · exact Or.inr h

lemma fill_nochange {fs : List Field} {o : Obj} {n : Nat}
    (h : ∀ f ∈ fs, getv o f.iname ≠ none) : fillDefaults fs o n = (o, n) := by
  induction fs generalizing o n with
  | nil => rfl
  | cons f rest ih =>
    rw [fillDefaults, if_neg (h f (List.mem_cons_self _ _))]
    exact ih (fun g hg => h g (List.mem_cons_of_mem _ hg))

lemma fill_getv_default {fs : List Field} {o : Obj} {n : Nat} {f : Field}
    (hnd : (fs.map (fun g => g.iname)).Nodup) (hf : f ∈ fs)
    (h : getv o f.iname = none) : getv (fillDefaults fs o n).1 f.iname = some f.dflt := by
  induction fs generalizing o n with
  | nil => simp at hf
  | cons g rest ih =>
    rw [List.map_cons, List.nodup_cons] at hnd
    rw [fillDefaults]
    rcases List.mem_cons.mp hf with rfl | hf
    · rw [if_pos h]
      exact fill_getv_of_some (by rw [getv_append_of_none _ h, getv_cons, if_pos rfl])
    · have hne : g.iname ≠ f.iname := by
        intro hh
        exact hnd.1 (hh ▸ List.mem_map_of_mem (fun x => x.iname) hf)
      split
      · rename_i hnone
        refine ih hnd.2 hf ?_
        rw [getv_append_of_none _ h, getv_cons, if_neg hne]
        rfl
      · exact ih hnd.2 hf h

/-! ### Lemmas about the pruning pass -/

lemma delv_eq_filter (o : Obj) (k : String) :
    delv o k = o.filter (fun p => !(p.1 == k)) := rfl

lemma prune_eq (ks : List String) (o : Obj) (n : Nat) :
    pruneKeys ks o n =
      (o.filter (fun p => keepKey p.1 || !(decide (p.1 ∈ ks))),
       n + (ks.filter (fun k => !(keepKey k))).length) := by
  induction ks generalizing o n with
  | nil => simp [pruneKeys]
  | cons k rest ih =>
    by_cases hk : keepKey k
    · rw [pruneKeys, if_pos hk, ih]
      refine Prod.ext ?_ ?_
      · refine List.filter_congr (fun p _ => ?_)
        by_cases hpk : p.1 = k
        · simp [hpk, hk]
        · simp [List.mem_cons, hpk]
      · simp [hk]
    · rw [pruneKeys, if_neg hk, ih, delv_eq_filter, List.filter_filter]
      refine Prod.ext ?_ ?_
      · refine List.filter_congr (fun p _ => ?_)
        by_cases hpk : p.1 = k
        · simp [hpk, hk]
        · simp [List.mem_cons, hpk]
      · simp [hk, Nat.add_assoc, Nat.add_comm]

lemma getv_filter_keyPred (q : String → Bool) (o : Obj) (k : String) :
    getv (o.filter (fun p => q p.1)) k = if q k then getv o k else none := by
  induction o with
  | nil => simp
  | cons p o ih =>
    obtain ⟨k', v'⟩ := p
    by_cases hq : q k'
    · rw [List.filter_cons_of_pos (by simpa using hq), getv_cons, getv_cons]
      by_cases hk : k' = k
      · subst hk; simp [hq]
      · simp [hk, ih]
    · rw [List.filter_cons_of_neg (by simpa using hq), getv_cons, ih]
      by_cases hk : k' = k
      · subst hk; simp [hq]
      · simp [hk]

lemma mem_keysOf_filter_keyPred (q : String → Bool) (o : Obj) (k : String) :
    k ∈ keysOf (o.filter (fun p => q p.1)) ↔ k ∈ keysOf o ∧ q k := by
  rw [mem_keysOf_iff, getv_filter_keyPred, mem_keysOf_iff]
  by_cases hq : q k <;> simp [hq]

lemma fields_iname_keep : ∀ f ∈ fields, keepKey f.iname = true := by decide

lemma keepKey_iff (k : String) : keepKey k = true ↔ k = "id" ∨ k ∈ inames := by
  rw [keepKey, Bool.or_eq_true, beq_iff_eq, List.any_eq_true]
  constructor
  · rintro (rfl | ⟨f, hf, hk⟩)
    · exact Or.inl rfl
    · exact Or.inr (by
        rw [inames, List.mem_map]
        exact ⟨f, hf, by simpa [beq_iff_eq] using hk⟩)
  · rintro (rfl | hk)
    · exact Or.inl rfl
    · rw [inames, List.mem_map] at hk
      obtain ⟨f, hf, hfk⟩ := hk
      exact Or.inr ⟨f, hf, by simp [hfk]⟩

/-! ### The sanitizer as a filter, and the C1 idempotence development -/

lemma migrate_keys {o : Obj} (k : String) :
    (getv (migrateInput o).1 k ≠ none) ↔ (getv o k ≠ none) := by
  rw [migrateInput]
  split
  · rename_i hvideo
    have hpres : getv o "it" ≠ none := by rw [hvideo]; simp
    rw [← mem_keysOf_iff, ← mem_keysOf_iff, keysOf_setv_of_present _ hpres]
  · exact Iff.rfl

lemma migrate_it_ne_video {o : Obj} {v : Value}
    (h : getv (migrateInput o).1 "it" = some v) : v ≠ .str "video" := by
  rw [migrateInput] at h
  split at h
  · rename_i hvideo
    have hpres : getv o "it" ≠ none := by rw [hvideo]; simp
    rw [getv_setv_self_of_present _ hpres] at h
    intro hv
    rw [hv] at h
    simp at h
  · rename_i hnv
    intro hv
    rw [hv] at h
    exact hnv h

lemma sanitize_fst (o : Obj) :
    (sanitizeConfig o).1 =
      ((fillDefaults fields (migrateInput o).1 (migrateInput o).2).1).filter
        (fun p => keepKey p.1) := by
  simp only [sanitizeConfig]
  rw [prune_eq]
  refine List.filter_congr (fun p hp => ?_)
  have : p.1 ∈ keysOf (fillDefaults fields (migrateInput o).1 (migrateInput o).2).1 :=
    List.mem_map_of_mem Prod.fst hp
  simp [this]

lemma mem_keys_sanitize (o : Obj) (k : String) :
    k ∈ keysOf (sanitizeConfig o).1 ↔ (k ∈ inames ∨ (k = "id" ∧ k ∈ keysOf o)) := by
  rw [sanitize_fst, mem_keysOf_filter_keyPred, mem_keysOf_iff, fill_keys_iff]
  rw [show fields.map (fun f => f.iname) = inames from rfl]
  rw [migrate_keys, ← mem_keysOf_iff]
  have hkeep := keepKey_iff k
  constructor
  · rintro ⟨ho | hin, hk⟩
    · rcases hkeep.mp hk with rfl | hin
      · exact Or.inr ⟨rfl, ho⟩
      · exact Or.inl hin
    · exact Or.inl hin
  · rintro (hin | ⟨rfl, ho⟩)
    · exact ⟨Or.inr hin, hkeep.mpr (Or.inr hin)⟩
    · exact ⟨Or.inl ho, hkeep.mpr (Or.inl rfl)⟩

lemma sanitize_it_ne_video (o : Obj) :
    getv (sanitizeConfig o).1 "it" ≠ some (.str "video") := by
  rw [sanitize_fst, getv_filter_keyPred, if_pos (by decide : keepKey "it" = true)]
  cases h1 : getv (migrateInput o).1 "it" with
  | some v =>
    rw [fill_getv_of_some h1]
    intro hv
    exact migrate_it_ne_video h1 (by injection hv)
  | none =>
    have hit : (⟨"it", .string, .str "url", .string, "InputType"⟩ : Field) ∈ fields := by
      decide
    have := fill_getv_default (o := (migrateInput o).1) (n := (migrateInput o).2)
      (by decide : (fields.map (fun g => g.iname)).Nodup) hit h1
    rw [this]
    simp

lemma sanitize_fix {o : Obj}
    (h1 : ∀ f ∈ fields, getv o f.iname ≠ none)
    (h2 : ∀ k ∈ keysOf o, keepKey k = true)
    (h3 : getv o "it" ≠ some (.str "video")) :
    sanitizeConfig o = (o, 0) := by
  have hm : migrateInput o = (o, 0) := by rw [migrateInput, if_neg h3]
  rw [sanitizeConfig]
  simp only [hm]
  rw [fill_nochange h1, prune_eq]
  refine Prod.ext ?_ ?_
  · refine List.filter_eq_self.mpr (fun p hp => ?_)
    have := h2 p.1 (List.mem_map_of_mem Prod.fst hp)
    simp [this]
  · have : (keysOf o).filter (fun k => !(keepKey k)) = [] := by
      refine List.filter_eq_nil_iff.mpr (fun k hk => ?_)
      simp [h2 k hk]
    simp [this]

lemma sanitize_fields_present (o : Obj) :
    ∀ f ∈ fields, getv (sanitizeConfig o).1 f.iname ≠ none := by
  intro f hf
  rw [sanitize_fst, getv_filter_keyPred, if_pos (fields_iname_keep f hf)]
  exact fill_getv_ne_none hf

lemma sanitize_keys_keep (o : Obj) :
    ∀ k ∈ keysOf (sanitizeConfig o).1, keepKey k = true := by
  intro k hk
  rw [sanitize_fst] at hk
  exact ((mem_keysOf_filter_keyPred _ _ _).mp hk).2

/-- The claim C1: for every input config record, applying `sanitizeConfig` to
the output of `sanitizeConfig` changes nothing (change count 0 and identical
record), and the key set of the sanitized record consists exactly of the
schema's internal field names together with `id` when (and only when) the
input had an `id` key: every missing field was filled and every non-schema
key other than `id` removed. -/
theorem C1_sanitize_idempotent_and_keyset (o : Obj) :
    sanitizeConfig (sanitizeConfig o).1 = ((sanitizeConfig o).1, 0) ∧
    (∀ k, k ∈ keysOf (sanitizeConfig o).1 ↔ (k ∈ inames ∨ (k = "id" ∧ k ∈ keysOf o))) := by
  refine ⟨?_, fun k => mem_keys_sanitize o k⟩
  exact sanitize_fix (sanitize_fields_present o) (sanitize_keys_keep o)
    (sanitize_it_ne_video o)

/-! ### The instance registry and the guarded lifecycle operations -/

/-- JS truthiness `Boolean(v)`. -/
def jsToBool : Value → Bool
  | .str s => !(s == "")
  | .num m _ => !(m == 0)
  | .nan => false
  | .bool b => b
  | .null => false
  | .undef => false

/-- Modelled from the spec: one registry entry pairs the instance
configuration with the derived running status of its Capture Worker (the
`Browser` class of `vingester-browser.js` is not part of the sources;
`running()` queries the worker state, which flips only when the worker's own
start/stop call resolves). -/
structure Inst where
  cfg : Obj
  running : Bool
deriving DecidableEq, Repr

/-- The in-memory registry `browsers`: id keys to instances, insertion order. -/
abbrev Registry := List (String × Inst)

/-- Registry read `browsers[id]`. -/
def lookupR (reg : Registry) (id : String) : Option Inst :=
  (reg.find? (fun p => p.1 == id)).map (fun p => p.2)

/-- Mark the entry with key `id` as running or stopped. -/
def setRunning (reg : Registry) (id : String) (r : Bool) : Registry :=
  reg.map (fun p => if p.1 == id then (p.1, ⟨p.2.cfg, r⟩) else p)

/-- Registry deletion `delete browsers[id]` (a silent no-op if absent). -/
def delR (reg : Registry) (id : String) : Registry :=
  reg.filter (fun p => !(p.1 == id))

/-- Modelled from the spec: `Browser#valid()` (not in the sources) — a pure
predicate over the current config: non-empty title (`t`) and output
enabled (`N`). -/
def instValid (o : Obj) : Bool :=
  jsToBool ((getv o "t").getD .undef) && jsToBool ((getv o "N").getD .undef)

/-- The message thrown by `controlBrowser` for an unknown instance id. -/
def errUnknown : String := "invalid browser id"

/-- The message thrown by `start` on an already running instance. -/
def errAlreadyRunning : String := "browser already running"

/-- The message thrown by `start` on an instance with invalid config. -/
def errNotValid : String := "browser configuration not valid"

/-- The message thrown by `stop`/`reload` on an instance that is not running. -/
def errNotRunning : String := "browser still not running"

/-- `controlBrowser("start", id)`: guarded start; `workerOk` is the outcome of
the external worker's own start call — on success the instance is marked
running, on failure it is stopped again. The result pairs the registry after
the call with the thrown error, if any (every throw happens before any
mutation). -/
def ctlStart (reg : Registry) (id : String) (workerOk : Bool) :
    Registry × Option String :=
  match lookupR reg id with
  | none => (reg, some errUnknown)
  | some b =>
    if b.running then (reg, some errAlreadyRunning)
    else if !(instValid b.cfg) then (reg, some errNotValid)
    else if workerOk then (setRunning reg id true, none)
    else (setRunning reg id false, none)

/-- `controlBrowser("stop", id)`: guarded stop. -/
def ctlStop (reg : Registry) (id : String) : Registry × Option String :=
  match lookupR reg id with
  | none => (reg, some errUnknown)
  | some b =>
    if !b.running then (reg, some errNotRunning)
    else (setRunning reg id false, none)

/-- `controlBrowser("del", id)`: when the id is present and running, stop
first (a thrown stop error would propagate before the deletion), then
`delete browsers[id]` — with no unknown-id guard of its own. -/
def ctlDel (reg : Registry) (id : String) : Registry × Option String :=
  let isRun := match lookupR reg id with
    | some b => b.running
    | none => false
  if isRun then
    match ctlStop reg id with
    | (reg1, none) => (delR reg1 id, none)
    | (reg1, some e) => (reg1, some e)
  else (delR reg id, none)

/-- `controlBrowser("add", id, cfg)`: insert a fresh instance (worker handle
created, not running). -/
def ctlAdd (reg : Registry) (id : String) (cfg : Obj) : Registry :=
  if reg.any (fun p => p.1 == id) then
    reg.map (fun p => if p.1 == id then (id, ⟨cfg, false⟩) else p)
  else reg ++ [(id, ⟨cfg, false⟩)]

/-- The TypeError raised by `browsers[id].reconfigure(cfg)` when the id is
absent (a property access on `undefined`). -/
def errTypeError : String := "TypeError: browsers[id] is undefined"

/-- `controlBrowser("mod", id, cfg)`: replace the config in place (modelled
from the spec: `Browser#reconfigure` swaps the config and retains the worker
handle and the running status); on an absent id the method call on
`undefined` throws a TypeError before any mutation. -/
def ctlMod (reg : Registry) (id : String) (cfg : Obj) :
    Registry × Option String :=
  match lookupR reg id with
  | none => (reg, some errTypeError)
  | some _ =>
    (reg.map (fun p => if p.1 == id then (p.1, ⟨cfg, p.2.running⟩) else p), none)

/-- `controlBrowser("start-all")`: the attempted ids are exactly those whose
instance is simultaneously not running and valid; each attempt runs the
guarded start with its worker outcome. -/
def ctlStartAll (reg : Registry) (workerOk : String → Bool) :
    Registry × List String :=
  let att := (reg.filter (fun p => !p.2.running && instValid p.2.cfg)).map Prod.fst
  (att.foldl (fun r i => (ctlStart r i (workerOk i)).1) reg, att)

/-- `controlBrowser("stop-all")`: stop every running instance. -/
def ctlStopAll (reg : Registry) : Registry × List String :=
  let att := (reg.filter (fun p => p.2.running)).map Prod.fst
  (att.foldl (fun r i => (ctlStop r i).1) reg, att)

/-- `controlBrowser("prune")`: for every key, stop the instance when it is
running, then delete the entry. -/
def ctlPrune (reg : Registry) : Registry :=
  (reg.map Prod.fst).foldl
    (fun r i =>
      delR (match lookupR r i with
        | some b => if b.running then (ctlStop r i).1 else r
        | none => r) i)
    reg

/-! ### Registry lemmas -/

lemma lookupR_cons (id' : String) (b : Inst) (reg : Registry) (id : String) :
    lookupR ((id', b) :: reg) id = if id' = id then some b else lookupR reg id := by
  by_cases h : id' = id
  · simp [lookupR, List.find?, h]
  · have hb : (id' == id) = false := by simpa using h
    simp [lookupR, List.find?, hb, h]

lemma mem_of_lookupR_eq_some {reg : Registry} {id : String} {b : Inst}
    (h : lookupR reg id = some b) : (id, b) ∈ reg := by
  induction reg with
  | nil => simp [lookupR] at h
  | cons p reg ih =>
    obtain ⟨id', b'⟩ := p
    rw [lookupR_cons] at h
    by_cases hk : id' = id
    · rw [if_pos hk] at h
      exact List.mem_cons.mpr (Or.inl (by simp [hk, h.symm]; injection h; simp_all))
    · rw [if_neg hk] at h
      exact List.mem_cons.mpr (Or.inr (ih h))

lemma lookupR_eq_some_of_mem {reg : Registry} (hnd : (reg.map Prod.fst).Nodup)
    {id : String} {b : Inst} (h : (id, b) ∈ reg) : lookupR reg id = some b := by
  induction reg with
  | nil => simp at h
  | cons p reg ih =>
    obtain ⟨id', b'⟩ := p
    rw [List.map_cons, List.nodup_cons] at hnd
    rw [lookupR_cons]
    rcases List.mem_cons.mp h with heq | hmem
    · injection heq with h1 h2
      rw [if_pos h1.symm]
      rw [h2]
    · have hne : id' ≠ id := by
        intro hh
        have hmm : id ∈ reg.map Prod.fst := List.mem_map_of_mem Prod.fst hmem
        exact hnd.1 (hh ▸ hmm)
      rw [if_neg hne]
      exact ih hnd.2 hmem

lemma delR_of_lookupR_none {reg : Registry} {id : String}
    (h : lookupR reg id = none) : delR reg id = reg := by
  refine List.filter_eq_self.mpr (fun p hp => ?_)
  rw [lookupR] at h
  have := List.find?_eq_none.mp (by
    cases hf : reg.find? (fun p => p.1 == id)
    · rfl
    · rw [hf] at h; simp at h) p hp
  simpa using this

lemma lookupR_delR_self (reg : Registry) (id : String) :
    lookupR (delR reg id) id = none := by
  rw [lookupR]
  cases hf : (delR reg id).find? (fun p => p.1 == id) with
  | none => rfl
  | some p =>
    have hmem := List.mem_of_find?_eq_some hf
    have hpred := List.find?_some hf
    rw [delR] at hmem
    have := List.of_mem_filter hmem
    rw [hpred] at this
    simp at this

lemma lookupR_setRunning_self {reg : Registry} {id : String} {b : Inst} (r : Bool)
    (h : lookupR reg id = some b) :
    lookupR (setRunning reg id r) id = some ⟨b.cfg, r⟩ := by
  induction reg with
  | nil => simp [lookupR] at h
  | cons p reg ih =>
    obtain ⟨id', b'⟩ := p
    rw [lookupR_cons] at h
    by_cases hk : id' = id
    · rw [if_pos hk] at h
      injection h with h
      subst h; subst hk
      simp [setRunning, lookupR_cons]
    · rw [if_neg hk] at h
      have hb : (id' == id) = false := by simpa using hk
      simpa [setRunning, hb, lookupR_cons, hk] using ih h

lemma ctlStop_of_running {reg : Registry} {id : String} {b : Inst}
    (hl : lookupR reg id = some b) (hr : b.running = true) :
    ctlStop reg id = (setRunning reg id false, none) := by
  rw [ctlStop, hl]
  simp [hr]

lemma ctlStop_of_not_running {reg : Registry} {id : String} {b : Inst}
    (hl : lookupR reg id = some b) (hr : b.running = false) :
    ctlStop reg id = (reg, some errNotRunning) := by
  rw [ctlStop, hl]
  simp [hr]

/-! ### C2: failure guards of start and stop -/

/-- The claim C2: `start` on an id not in the registry fails with the
unknown-instance error; `start` on a running instance fails with the
already-running error; `start` on an instance with invalid config fails with
the invalid-config error; `stop` on an existing instance that is not running
fails with the not-running error — and each failing call leaves the registry
unchanged. -/
theorem C2_lifecycle_guards :
    (∀ (reg : Registry) (id : String) (ok : Bool), lookupR reg id = none →
      ctlStart reg id ok = (reg, some errUnknown)) ∧
    (∀ (reg : Registry) (id : String) (ok : Bool) (b : Inst),
      lookupR reg id = some b → b.running = true →
      ctlStart reg id ok = (reg, some errAlreadyRunning)) ∧
    (∀ (reg : Registry) (id : String) (ok : Bool) (b : Inst),
      lookupR reg id = some b → b.running = false → instValid b.cfg = false →
      ctlStart reg id ok = (reg, some errNotValid)) ∧
    (∀ (reg : Registry) (id : String) (b : Inst),
      lookupR reg id = some b → b.running = false →
      ctlStop reg id = (reg, some errNotRunning)) := by
  refine ⟨?_, ?_, ?_, ?_⟩
  · intro reg id ok h
    rw [ctlStart, h]
  · intro reg id ok b h hr
    rw [ctlStart, h]
    simp [hr]
  · intro reg id ok b h hr hv
    rw [ctlStart, h]
    simp [hr, hv]
  · intro reg id b h hr
    rw [ctlStop, h]
    simp [hr]

/-- Concrete instantiation of the C2 guards: a one-entry registry exercising
each failure case. -/
theorem C2_lifecycle_guards_witness :
    ctlStart [] "x" true = ([], some errUnknown) ∧
    ctlStart [("a", ⟨[], true⟩)] "a" true = ([("a", ⟨[], true⟩)], some errAlreadyRunning) ∧
    ctlStart [("a", ⟨[], false⟩)] "a" true = ([("a", ⟨[], false⟩)], some errNotValid) ∧
    ctlStop [("a", ⟨[], false⟩)] "a" = ([("a", ⟨[], false⟩)], some errNotRunning) :=
  ⟨C2_lifecycle_guards.1 [] "x" true (by decide),
   C2_lifecycle_guards.2.1 [("a", ⟨[], true⟩)] "a" true ⟨[], true⟩ (by decide) rfl,
   C2_lifecycle_guards.2.2.1 [("a", ⟨[], false⟩)] "a" true ⟨[], false⟩ (by decide) rfl
     (by decide),
   C2_lifecycle_guards.2.2.2 [("a", ⟨[], false⟩)] "a" ⟨[], false⟩ (by decide) rfl⟩

/-! ### C6: bulk start-all eligibility -/

/-- The claim C6: for every registry (with JS-object-unique ids), the
`start-all` bulk operation attempts a start exactly on the ids whose instance
is simultaneously not running and valid; in particular an instance whose
title is the empty string is never attempted. The validity predicate is
modelled from the spec (non-empty title and output enabled). -/
theorem C6_startAll_eligibility (reg : Registry) (workerOk : String → Bool)
    (hnd : (reg.map Prod.fst).Nodup) :
    (∀ id, id ∈ (ctlStartAll reg workerOk).2 ↔
      ∃ b, lookupR reg id = some b ∧ b.running = false ∧ instValid b.cfg = true) ∧
    (∀ id b, lookupR reg id = some b → getv b.cfg "t" = some (.str "") →
      id ∉ (ctlStartAll reg workerOk).2) := by
  have hatt : (ctlStartAll reg workerOk).2 =
      (reg.filter (fun p => !p.2.running && instValid p.2.cfg)).map Prod.fst := rfl
  have hmem : ∀ id, id ∈ (ctlStartAll reg workerOk).2 ↔
      ∃ b, lookupR reg id = some b ∧ b.running = false ∧ instValid b.cfg = true := by
    intro id
    rw [hatt, List.mem_map]
    constructor
    · rintro ⟨p, hp, rfl⟩
      have hpm := List.mem_of_mem_filter hp
      have hpf := List.of_mem_filter hp
      rw [Bool.and_eq_true, Bool.not_eq_true'] at hpf
      refine ⟨p.2, ?_, hpf.1, hpf.2⟩
      exact lookupR_eq_some_of_mem hnd (by simpa using hpm)
    · rintro ⟨b, hb, hrun, hval⟩
      refine ⟨(id, b), List.mem_filter.mpr ⟨mem_of_lookupR_eq_some hb, ?_⟩, rfl⟩
      simp [hrun, hval]
  refine ⟨hmem, ?_⟩
  intro id b hb ht hin
  obtain ⟨b', hb', _, hval⟩ := (hmem id).mp hin
  rw [hb] at hb'
  injection hb' with hb'
  subst hb'
  rw [instValid, ht] at hval
  simp [jsToBool] at hval

/-- Concrete instantiation of C6: a two-entry registry where only the valid,
stopped instance is attempted and an empty-title instance is skipped. -/
theorem C6_startAll_eligibility_witness :
    ("good" ∈ (ctlStartAll
        [("good", ⟨[("t", .str "Cam1"), ("N", .bool true)], false⟩),
         ("bad", ⟨[("t", .str ""), ("N", .bool true)], false⟩)]
        (fun _ => true)).2 ↔
      ∃ b, lookupR
        [("good", ⟨[("t", .str "Cam1"), ("N", .bool true)], false⟩),
         ("bad", ⟨[("t", .str ""), ("N", .bool true)], false⟩)] "good" = some b ∧
        b.running = false ∧ instValid b.cfg = true) ∧
    "bad" ∉ (ctlStartAll
        [("good", ⟨[("t", .str "Cam1"), ("N", .bool true)], false⟩),
         ("bad", ⟨[("t", .str ""), ("N", .bool true)], false⟩)]
        (fun _ => true)).2 := by
  have h := C6_startAll_eligibility
    [("good", ⟨[("t", .str "Cam1"), ("N", .bool true)], false⟩),
     ("bad", ⟨[("t", .str ""), ("N", .bool true)], false⟩)]
    (fun _ => true) (by decide)
  exact ⟨h.1 "good", h.2 "bad" ⟨[("t", .str ""), ("N", .bool true)], false⟩
    (by decide) (by decide)⟩

/-! ### Persistence: the stored configuration snapshot and its version -/

/-- The durable store as far as the configuration is concerned: the
`browsers` entry (the serialized full instance-config set) and the in-memory
`configVersion` counter. -/
structure St where
  stored : Option (List Obj)
  configVersion : Nat
deriving DecidableEq, Repr

/-- `saveConfigs(browsers)`: write the full set and bump the version. -/
def saveConfigs (st : St) (bs : List Obj) : St :=
  { stored := some bs, configVersion := st.configVersion + 1 }

/-- JS object spread `{ ...base, ...ext }`: later keys override. -/
def objAssign (base : Obj) (ext : Obj) : Obj :=
  ext.foldl (fun o p => setv o p.1 p.2) base

/-- The WebUI helper building `{ id: bid, ...browsers[bid].cfg }` for every
registry entry. -/
def regToCfgArray (reg : Registry) : List Obj :=
  reg.map (fun p => objAssign [("id", .str p.1)] p.2.cfg)

/-- The WebUI helper `saveBrowsersToStore`: persist the in-memory registry. -/
def saveBrowsersToStore (reg : Registry) (st : St) : St :=
  saveConfigs st (regToCfgArray reg)

/-- `POST /api/instances`: create an instance (fresh id, sanitize, add, save).
Returns status code, registry and store. -/
def webuiCreate (reg : Registry) (st : St) (newId : String) (body : Obj) :
    Nat × Registry × St :=
  let cfg := (sanitizeConfig (objAssign [("id", .str newId)] body)).1
  let reg1 := ctlAdd reg newId cfg
  (201, reg1, saveBrowsersToStore reg1 st)

/-- The thrown-error short circuit of the WebUI's async route wrapper: an
awaited state-machine call that threw is routed to the global 500 handler
(no further step of the route body runs), otherwise the rest of the route
continues with the resulting registry. -/
def patchFinish (st : St) (r : Registry × Option String)
    (k : Registry → Nat × Registry × St) : Nat × Registry × St :=
  match r with
  | (reg1, some _) => (500, reg1, st)
  | (reg1, none) => k reg1

/-- `PATCH /api/instances/:id`: merge + re-sanitize the config, stop/modify/
restart when it was running, then save and answer 200 — but any error thrown
by the stop, the modify or the restart (for example an invalidating patch of
a running instance, whose restart throws the invalid-config error) is routed
by the async wrapper to the 500 handler before `saveBrowsersToStore` runs,
so a failing patch performs no save. -/
def webuiPatch (reg : Registry) (st : St) (id : String) (body : Obj)
    (workerOk : Bool) : Nat × Registry × St :=
  match lookupR reg id with
  | none => (404, reg, st)
  | some b =>
    let cfg := (sanitizeConfig (objAssign b.cfg body)).1
    patchFinish st (if b.running then ctlStop reg id else (reg, none))
      (fun reg1 =>
        patchFinish st (ctlMod reg1 id cfg) (fun reg2 =>
          patchFinish st
            (if b.running then ctlStart reg2 id workerOk else (reg2, none))
            (fun reg3 => (200, reg3, saveBrowsersToStore reg3 st))))

/-- `DELETE /api/instances/:id`: 404 on an unknown id, otherwise del + save. -/
def webuiDelete (reg : Registry) (st : St) (id : String) :
    Nat × Registry × St :=
  match lookupR reg id with
  | none => (404, reg, st)
  | some _ =>
    let reg1 := (ctlDel reg id).1
    (200, reg1, saveBrowsersToStore reg1 st)

/-- The `browsers-save` IPC handler: persist the given set. -/
def browsersSaveIPC (st : St) (bs : List Obj) : St :=
  saveConfigs st bs

/-- Modelled from the spec: the local control UI renderer
(`vingester-control.html`, not in the sources) persists the registry through
the `browsers-save` IPC channel after every successful local `add`. -/
def localAdd (reg : Registry) (st : St) (id : String) (cfg : Obj) :
    Registry × St :=
  let reg1 := ctlAdd reg id cfg
  (reg1, browsersSaveIPC st (regToCfgArray reg1))

/-- Modelled from the spec: local `mod` followed by the renderer's
`browsers-save` persistence (when the mod did not throw). -/
def localMod (reg : Registry) (st : St) (id : String) (cfg : Obj) :
    Registry × St :=
  match ctlMod reg id cfg with
  | (reg1, none) => (reg1, browsersSaveIPC st (regToCfgArray reg1))
  | (reg1, some _) => (reg1, st)

/-- Modelled from the spec: local `del` followed by the renderer's
`browsers-save` persistence (when the del did not throw). -/
def localDel (reg : Registry) (st : St) (id : String) : Registry × St :=
  match ctlDel reg id with
  | (reg1, none) => (reg1, browsersSaveIPC st (regToCfgArray reg1))
  | (reg1, some _) => (reg1, st)

/-- Modelled from the spec: the bulk `prune` (force-stop and remove every
instance, a configuration-affecting bulk operation of the local surface)
followed by the renderer's `browsers-save` persistence. -/
def localPrune (reg : Registry) (st : St) : Registry × St :=
  let reg1 := ctlPrune reg
  (reg1, browsersSaveIPC st (regToCfgArray reg1))

/-! ### C3: deletion semantics -/

/-- Refutation of the claim C3 at a concrete input: `controlBrowser("del")`
on an id absent from the registry does not fail — it returns successfully
(no thrown error) and leaves the registry unchanged, instead of failing with
an unknown-id error. -/
theorem C3_counterexample :
    lookupR ([] : Registry) "X" = none ∧
    ctlDel ([] : Registry) "X" = ([], none) := by
  constructor
  · rfl
  · rfl

/-- The claim C3 as amended: the state-machine `del` treats an unknown id as
a successful no-op (only the WebUI adapter fails, with a 404, before calling
`del`); when the id exists and the instance is running, `del` first stops it
— the instance reaches stopped status — and only then removes the entry from
the registry. -/
theorem C3_del_amended :
    (∀ (reg : Registry) (id : String), lookupR reg id = none →
      ctlDel reg id = (reg, none)) ∧
    (∀ (reg : Registry) (st : St) (id : String), lookupR reg id = none →
      webuiDelete reg st id = (404, reg, st)) ∧
    (∀ (reg : Registry) (id : String) (b : Inst),
      lookupR reg id = some b → b.running = true →
      ctlStop reg id = (setRunning reg id false, none) ∧
      lookupR (setRunning reg id false) id = some ⟨b.cfg, false⟩ ∧
      ctlDel reg id = (delR (setRunning reg id false) id, none) ∧
      lookupR (delR (setRunning reg id false) id) id = none) := by
  refine ⟨?_, ?_, ?_⟩
  · intro reg id h
    rw [ctlDel]
    simp only [h]
    rw [delR_of_lookupR_none h]
    simp
  · intro reg st id h
    rw [webuiDelete, h]
  · intro reg id b h hr
    have hstop : ctlStop reg id = (setRunning reg id false, none) := by
      rw [ctlStop, h]
      simp [hr]
    refine ⟨hstop, lookupR_setRunning_self false h, ?_, lookupR_delR_self _ _⟩
    rw [ctlDel]
    simp only [h, hr, if_true]
    rw [hstop]

/-- Concrete instantiation of the amended C3: deleting a running instance
stops it first, then removes it; deleting an unknown id is a no-op and the
WebUI adapter answers 404. -/
theorem C3_del_amended_witness :
    ctlDel ([] : Registry) "Y" = ([], none) ∧
    webuiDelete ([] : Registry) ⟨none, 0⟩ "Y" = (404, [], ⟨none, 0⟩) ∧
    (ctlStop [("a", ⟨[], true⟩)] "a" = (setRunning [("a", ⟨[], true⟩)] "a" false, none) ∧
     lookupR (setRunning [("a", ⟨[], true⟩)] "a" false) "a" = some ⟨[], false⟩ ∧
     ctlDel [("a", ⟨[], true⟩)] "a" =
       (delR (setRunning [("a", ⟨[], true⟩)] "a" false) "a", none) ∧
     lookupR (delR (setRunning [("a", ⟨[], true⟩)] "a" false) "a") "a" = none) :=
  ⟨C3_del_amended.1 [] "Y" (by decide),
   C3_del_amended.2.1 [] ⟨none, 0⟩ "Y" (by decide),
   C3_del_amended.2.2 [("a", ⟨[], true⟩)] "a" ⟨[], true⟩ (by decide) rfl⟩

/-! ### Deletion never throws (used by C3 and C7) -/

/-- `controlBrowser("del")` never throws: the stop is attempted only on a
present, running instance (where it succeeds) and the deletion itself has no
guard. -/
lemma ctlDel_no_throw (reg : Registry) (id : String) :
    (ctlDel reg id).2 = none := by
  cases hl : lookupR reg id with
  | none =>
    rw [ctlDel]
    simp [hl]
  | some b =>
    by_cases hr : b.running
    · rw [ctlDel]
      simp only [hl, hr, if_true]
      rw [ctlStop_of_running hl hr]
    · have hrf : b.running = false := Bool.eq_false_iff.mpr hr
      rw [ctlDel]
      simp [hl, hrf]

/-! ### Telemetry: the CPU moving-average alert policy -/

/-- The CPU alert threshold (percent) of the usage callback. -/
def cpuThreshold : ℚ := 80

/-- One tick of the CPU alert machine (the `usages.record` callback): at or
above the threshold the consecutive counter `cpuHighCount` is incremented
and the syslog alert fires exactly when the counter reaches 3; below the
threshold the counter resets to zero. Returns the new counter and whether an
alert was emitted. -/
def cpuStep (cnt : Nat) (avg : ℚ) : Nat × Bool :=
  if cpuThreshold ≤ avg then (cnt + 1, decide (cnt + 1 = 3)) else (0, false)

/-- Run the alert machine over a sequence of average samples, returning the
final counter and the total number of alerts emitted. -/
def cpuRun (cnt : Nat) : List ℚ → Nat × Nat
  | [] => (cnt, 0)
  | a :: rest =>
    let s := cpuStep cnt a
    let r := cpuRun s.1 rest
    (r.1, (if s.2 then 1 else 0) + r.2)

/-- Decides that, starting from counter `cnt`, the counter never reaches 3
over the sample list (no run of three consecutive at-or-above-threshold
averages completes). -/
def noTriple (cnt : Nat) : List ℚ → Bool
  | [] => true
  | a :: rest =>
    if cpuThreshold ≤ a then decide (cnt + 1 < 3) && noTriple (cnt + 1) rest
    else noTriple 0 rest

lemma cpuRun_append (cnt : Nat) (l1 l2 : List ℚ) :
    cpuRun cnt (l1 ++ l2) =
      ((cpuRun (cpuRun cnt l1).1 l2).1,
       (cpuRun cnt l1).2 + (cpuRun (cpuRun cnt l1).1 l2).2) := by
  induction l1 generalizing cnt with
  | nil => simp [cpuRun]
  | cons a rest ih =>
    simp only [List.cons_append, cpuRun, List.append_eq, ih, Nat.add_assoc]

lemma cpuRun_all_high_no_alert :
    ∀ (l : List ℚ), (∀ a ∈ l, cpuThreshold ≤ a) →
      ∀ cnt : Nat, 3 ≤ cnt → (cpuRun cnt l).2 = 0 := by
  intro l
  induction l with
  | nil => intro _ cnt _; rfl
  | cons a rest ih =>
    intro h cnt hcnt
    have ha := h a (List.mem_cons_self _ _)
    have hne : ¬(cnt + 1 = 3) := by omega
    simp only [cpuRun, cpuStep, if_pos ha, decide_eq_true_eq]
    rw [if_neg hne,
      ih (fun x hx => h x (List.mem_cons_of_mem _ hx)) (cnt + 1) (by omega)]

lemma noTriple_no_alert : ∀ (l : List ℚ) (cnt : Nat),
    noTriple cnt l = true → (cpuRun cnt l).2 = 0 := by
  intro l
  induction l with
  | nil => intro cnt _; rfl
  | cons a rest ih =>
    intro cnt h
    rw [noTriple] at h
    by_cases ha : cpuThreshold ≤ a
    · rw [if_pos ha, Bool.and_eq_true, decide_eq_true_eq] at h
      have hne : ¬(cnt + 1 = 3) := by omega
      simp only [cpuRun, cpuStep, if_pos ha, decide_eq_true_eq]
      rw [if_neg hne, ih (cnt + 1) h.2]
    · rw [if_neg ha] at h
      simp only [cpuRun, cpuStep, if_neg ha]
      simp [ih 0 h]

/-- The claim C9: the CPU alert is edge-triggered — every run of three or
more consecutive at-or-above-threshold averages (of arbitrary, possibly
varying values) started with a reset counter emits exactly one alert in
total (not one per subsequent sample); a sample sequence in which no three
consecutive averages reach the threshold emits no alert at all; any
below-threshold average resets the counter to zero; and a below-threshold
average splits the alert count additively, restarting the machine from a
zero counter — so an arbitrary sequence decomposes into such runs. -/
theorem C9_cpu_alert_edge_triggered :
    (∀ l : List ℚ, (∀ a ∈ l, cpuThreshold ≤ a) → 3 ≤ l.length →
      (cpuRun 0 l).2 = 1) ∧
    (∀ l : List ℚ, noTriple 0 l = true → (cpuRun 0 l).2 = 0) ∧
    (∀ (l : List ℚ) (cnt : Nat) (b : ℚ), b < cpuThreshold →
      (cpuRun cnt (l ++ [b])).1 = 0) ∧
    (∀ (l rest : List ℚ) (b : ℚ), b < cpuThreshold →
      (cpuRun 0 (l ++ b :: rest)).2 = (cpuRun 0 l).2 + (cpuRun 0 rest).2) := by
  have hreset : ∀ (l : List ℚ) (cnt : Nat) (b : ℚ), b < cpuThreshold →
      (cpuRun cnt (l ++ [b])).1 = 0 := by
    intro l cnt b hb
    rw [cpuRun_append]
    simp [cpuRun, cpuStep, not_le.mpr hb]
  refine ⟨?_, fun l => noTriple_no_alert l 0, hreset, ?_⟩
  · intro l hall hlen
    rcases l with _ | ⟨a1, _ | ⟨a2, _ | ⟨a3, rest⟩⟩⟩
    · simp at hlen
    · simp at hlen
    · simp at hlen
    · have h1 := hall a1 (by simp)
      have h2 := hall a2 (by simp)
      have h3 := hall a3 (by simp)
      have hrest : ∀ x ∈ rest, cpuThreshold ≤ x := fun x hx => hall x (by simp [hx])
      simp only [cpuRun, cpuStep, if_pos h1, if_pos h2, if_pos h3]
      rw [cpuRun_all_high_no_alert rest hrest (0 + 1 + 1 + 1) (by omega)]
      simp
  · intro l rest b hb
    have : l ++ b :: rest = (l ++ [b]) ++ rest := by simp
    rw [this, cpuRun_append, hreset l 0 b hb]
    have hlb : (cpuRun 0 (l ++ [b])).2 = (cpuRun 0 l).2 := by
      rw [cpuRun_append]
      simp [cpuRun, cpuStep, not_le.mpr hb]
    rw [hlb]

/-- Concrete instantiation of C9: five consecutive varying high averages
emit exactly one alert; a dip before the third sample prevents the alert and
resets the counter. -/
theorem C9_cpu_alert_edge_triggered_witness :
    (cpuRun 0 ([85, 92, 80, 99, 87] : List ℚ)).2 = 1 ∧
    (cpuRun 0 ([85, 85, 79, 85, 85, 79] : List ℚ)).2 = 0 ∧
    (cpuRun 2 (([85, 85] : List ℚ) ++ [79])).1 = 0 :=
  ⟨C9_cpu_alert_edge_triggered.1 [85, 92, 80, 99, 87] (by decide) (by norm_num),
   C9_cpu_alert_edge_triggered.2.1 [85, 85, 79, 85, 85, 79] (by decide),
   C9_cpu_alert_edge_triggered.2.2.1 [85, 85] 2 79 (by norm_num [cpuThreshold])⟩

/-! ### Shutdown sequence -/

lemma keys_setRunning (reg : Registry) (id : String) (r : Bool) :
    (setRunning reg id r).map Prod.fst = reg.map Prod.fst := by
  rw [setRunning, List.map_map]
  refine List.map_congr_left (fun p _ => ?_)
  by_cases h : p.1 = id <;> simp [Function.comp, h]

lemma stopAll_fold_stops :
    ∀ (atts : List String) (reg : Registry),
      (reg.map Prod.fst).Nodup →
      (∀ p ∈ reg, p.2.running = true → p.1 ∈ atts) →
      ∀ q ∈ atts.foldl (fun r i => (ctlStop r i).1) reg, q.2.running = false := by
  intro atts
  induction atts with
  | nil =>
    intro reg _ hall q hq
    rw [List.foldl_nil] at hq
    cases hr : q.2.running
    · rfl
    · exact absurd (hall q hq hr) (List.not_mem_nil _)
  | cons a rest ih =>
    intro reg hnd hall q hq
    rw [List.foldl_cons] at hq
    refine ih (ctlStop reg a).1 ?_ ?_ q hq
    · cases hl : lookupR reg a with
      | none => rw [ctlStop, hl]; exact hnd
      | some b =>
        by_cases hr : b.running
        · rw [ctlStop_of_running hl hr]
          rw [keys_setRunning]; exact hnd
        · rw [ctlStop_of_not_running hl (Bool.eq_false_iff.mpr hr)]
          exact hnd
    · intro p hp hrun
      cases hl : lookupR reg a with
      | none =>
        rw [ctlStop, hl] at hp
        have hna : p.1 ≠ a := by
          intro hh
          have := List.find?_eq_none.mp (by
            rw [lookupR] at hl
            cases hf : reg.find? (fun p => p.1 == a)
            · rfl
            · rw [hf] at hl; simp at hl) p hp
          simp [hh] at this
        rcases List.mem_cons.mp (hall p hp hrun) with heq | hm
        · exact absurd heq hna
        · exact hm
      | some b =>
        by_cases hr : b.running
        · rw [ctlStop_of_running hl hr] at hp
          rw [setRunning] at hp
          obtain ⟨p0, hp0, hmap⟩ := List.mem_map.mp hp
          by_cases hpa : p0.1 = a
          · rw [if_pos (by simpa using hpa)] at hmap
            rw [← hmap] at hrun
            simp at hrun
          · rw [if_neg (by simpa using hpa)] at hmap
            subst hmap
            rcases List.mem_cons.mp (hall p0 hp0 hrun) with heq | hm
            · exact absurd heq hpa
            · exact hm
        · have hrf : b.running = false := Bool.eq_false_iff.mpr hr
          rw [ctlStop_of_not_running hl hrf] at hp
          have hpa : p.1 ≠ a := by
            intro hh
            have hp2 : (a, p.2) ∈ reg := by
              rw [← hh]
              simpa using hp
            have := lookupR_eq_some_of_mem hnd hp2
            rw [hl] at this
            injection this with this
            rw [this] at hrf
            rw [hrf] at hrun
            exact Bool.false_ne_true hrun
          rcases List.mem_cons.mp (hall p hp hrun) with heq | hm
          · exact absurd heq hpa
          · exact hm

/-- The HTTP adapter object as constructed by the `API` / `WebUI` classes:
the constructor assigns exactly the fields `app`, `server`, `enabled`,
`addr`, `port`. -/
structure APIServer where
  app : Option Unit
  server : Option Unit
  enabled : Bool
  addr : String
  port : String
deriving DecidableEq, Repr

/-- The JS property read `api.hapi` (and `webui.hapi`) performed by the close
handler: the classes never assign a `hapi` field, so the read always yields
`undefined` regardless of the object's state. -/
def APIServer.hapiProp (_a : APIServer) : Option Unit := none

/-- The observable steps of the `control.on("close")` shutdown handler. -/
inductive SEv where
  | finalAutosave
  | stopAllBrowsers
  | apiStop
  | webuiStop
  | exportCfgFile
  | saveWindowBounds
  | destroyControl
deriving DecidableEq, Repr

/-- The application state seen by the shutdown handler. -/
structure ShutSt where
  reg : Registry
  api : APIServer
  webui : APIServer
  configFile : Option String
deriving DecidableEq, Repr

/-- The `control.on("close")` handler: stop the timers, perform the final
autosave, stop all browsers, close the API and Web UI listeners when the
`hapi` property is truthy, optionally auto-export the configuration, save
the window bounds and destroy the control window — in the source order.
Returns the ordered event trace and the registry after the stop-all. -/
def shutdownSequence (s : ShutSt) : List SEv × Registry :=
  let trace :=
    [SEv.finalAutosave, SEv.stopAllBrowsers]
    ++ (if s.api.hapiProp.isSome then [SEv.apiStop] else [])
    ++ (if s.webui.hapiProp.isSome then [SEv.webuiStop] else [])
    ++ (if s.configFile.isSome then [SEv.exportCfgFile] else [])
    ++ [SEv.saveWindowBounds, SEv.destroyControl]
  (trace, (ctlStopAll s.reg).1)

/-- Refutation of the claim C8 at a concrete input: with a running instance
and both adapter servers present, the shutdown trace performs the final
persistence flush **before** stopping the instances, and neither listener
close step occurs at all (the `hapi` guard property is never set by the
classes) — contradicting the claimed order stop → flush → close → release. -/
theorem C8_counterexample :
    (shutdownSequence
      ⟨[("a", ⟨[], true⟩)],
       ⟨some (), some (), true, "127.0.0.1", "7211"⟩,
       ⟨some (), some (), true, "127.0.0.1", "7212"⟩, none⟩).1 =
      [SEv.finalAutosave, SEv.stopAllBrowsers, SEv.saveWindowBounds,
       SEv.destroyControl] ∧
    SEv.apiStop ∉ (shutdownSequence
      ⟨[("a", ⟨[], true⟩)],
       ⟨some (), some (), true, "127.0.0.1", "7211"⟩,
       ⟨some (), some (), true, "127.0.0.1", "7212"⟩, none⟩).1 ∧
    SEv.webuiStop ∉ (shutdownSequence
      ⟨[("a", ⟨[], true⟩)],
       ⟨some (), some (), true, "127.0.0.1", "7211"⟩,
       ⟨some (), some (), true, "127.0.0.1", "7212"⟩, none⟩).1 := by
  refine ⟨rfl, ?_, ?_⟩ <;> decide

/-- The claim C8 as amended: the shutdown handler always performs, in order,
the final persistence flush, then the stop of all running instances (after
which every registry entry is stopped), then the optional configuration
export, the window-bounds save and, last, the destruction of the control
window; the adapter listener close steps never occur because they are
guarded by the `hapi` property that the adapter classes never set. -/
theorem C8_shutdown_amended (s : ShutSt) (hnd : (s.reg.map Prod.fst).Nodup) :
    (shutdownSequence s).1 =
      [SEv.finalAutosave, SEv.stopAllBrowsers]
      ++ (if s.configFile.isSome then [SEv.exportCfgFile] else [])
      ++ [SEv.saveWindowBounds, SEv.destroyControl] ∧
    SEv.apiStop ∉ (shutdownSequence s).1 ∧
    SEv.webuiStop ∉ (shutdownSequence s).1 ∧
    (shutdownSequence s).1.getLast? = some SEv.destroyControl ∧
    (∀ q ∈ (shutdownSequence s).2, q.2.running = false) := by
  have htr : (shutdownSequence s).1 =
      [SEv.finalAutosave, SEv.stopAllBrowsers]
      ++ (if s.configFile.isSome then [SEv.exportCfgFile] else [])
      ++ [SEv.saveWindowBounds, SEv.destroyControl] := by
    simp [shutdownSequence, APIServer.hapiProp]
  refine ⟨htr, ?_, ?_, ?_, ?_⟩
  · rw [htr]; cases s.configFile <;> simp
  · rw [htr]; cases s.configFile <;> simp
  · rw [htr]; cases s.configFile <;> rfl
  · intro q hq
    refine stopAll_fold_stops _ s.reg hnd ?_ q hq
    intro p hp hrun
    exact List.mem_map_of_mem Prod.fst (List.mem_filter.mpr ⟨hp, by simp [hrun]⟩)

/-- Concrete instantiation of the amended C8 on a registry with one running
and one stopped instance. -/
theorem C8_shutdown_amended_witness :
    (shutdownSequence ⟨[("a", ⟨[], true⟩), ("b", ⟨[], false⟩)],
        ⟨some (), some (), true, "127.0.0.1", "7211"⟩,
        ⟨none, none, false, "127.0.0.1", "7212"⟩, some "cfg.yaml"⟩).1 =
      [SEv.finalAutosave, SEv.stopAllBrowsers, SEv.exportCfgFile,
       SEv.saveWindowBounds, SEv.destroyControl] ∧
    (∀ q ∈ (shutdownSequence ⟨[("a", ⟨[], true⟩), ("b", ⟨[], false⟩)],
        ⟨some (), some (), true, "127.0.0.1", "7211"⟩,
        ⟨none, none, false, "127.0.0.1", "7212"⟩, some "cfg.yaml"⟩).2,
      q.2.running = false) := by
  have h := C8_shutdown_amended
    ⟨[("a", ⟨[], true⟩), ("b", ⟨[], false⟩)],
     ⟨some (), some (), true, "127.0.0.1", "7211"⟩,
     ⟨none, none, false, "127.0.0.1", "7212"⟩, some "cfg.yaml"⟩ (by decide)
  exact ⟨h.1, h.2.2.2.2⟩

/-! ### Media path handling of the WebUI adapter -/

/-- `path.basename(p)` (POSIX): drop trailing separators, then take the part
after the last remaining separator. -/
def basenameStr (p : String) : String :=
  String.mk (((p.data.reverse.dropWhile (fun c => c = '/')).takeWhile
    (fun c => !(c = '/'))).reverse)

/-- One step of path resolution: empty and `.` segments are skipped, `..`
pops the last resolved segment (staying at the root when there is none) and
any other segment is appended. -/
def resolveStep (acc : List String) (s : String) : List String :=
  if s = "" ∨ s = "." then acc
  else if s = ".." then acc.dropLast
  else acc ++ [s]

/-- Resolve the segments of an absolute path (the normalization `path.join`
performs and the filesystem applies). -/
def resolveSegs (segs : List String) : List String :=
  segs.foldl resolveStep []

/-- The path targeted by `GET /media/:filename` and
`DELETE /api/media/:filename`: `path.join(mediaDir, path.basename(filename))`
in resolved-segment form, the media directory being given by its clean
absolute segments. -/
def mediaFilePath (mediaSegs : List String) (filename : String) : List String :=
  resolveSegs (mediaSegs ++ [basenameStr filename])

example : basenameStr "../../etc/passwd" = "passwd" := by decide

example : mediaFilePath ["data", "Media"] "a.png" = ["data", "Media", "a.png"] := by
  decide

example : mediaFilePath ["data", "Media"] ".." = ["data"] := by decide

lemma basenameStr_no_slash (p : String) : ∀ c ∈ (basenameStr p).data, c ≠ '/' := by
  intro c hc
  rw [basenameStr] at hc
  have hc' := List.mem_reverse.mp hc
  have := List.mem_takeWhile_imp hc'
  simpa using this

lemma resolve_foldl_clean :
    ∀ (A : List String) (acc : List String),
      (∀ s ∈ A, s ≠ "" ∧ s ≠ "." ∧ s ≠ "..") →
      A.foldl resolveStep acc = acc ++ A := by
  intro A
  induction A with
  | nil => intro acc _; simp
  | cons s rest ih =>
    intro acc h
    have hs := h s (List.mem_cons_self _ _)
    rw [List.foldl_cons, resolveStep, if_neg (by tauto), if_neg hs.2.2]
    rw [ih (acc ++ [s]) (fun t ht => h t (List.mem_cons_of_mem _ ht))]
    simp

/-- The claim C10: for every value of the `:filename` parameter, the path
that the media serve and media delete endpoints read or unlink is the join of
the media directory with the basename of the parameter — the basename never
contains a separator, the resolved target is always either a single clean
name inside the media directory, the media directory itself, or its parent
directory, and since the latter two are directories (not regular files) in
any filesystem where the media directory exists, a parameter containing
separators or `..` components can never read or delete a file outside the
media directory. -/
theorem C10_media_path_confined (mediaSegs : List String)
    (hclean : ∀ s ∈ mediaSegs, s ≠ "" ∧ s ≠ "." ∧ s ≠ "..")
    (isFile : List String → Bool)
    (hdir : isFile mediaSegs = false)
    (hparent : isFile mediaSegs.dropLast = false)
    (fn : String) :
    (∀ c ∈ (basenameStr fn).data, c ≠ '/') ∧
    (mediaFilePath mediaSegs fn = mediaSegs ++ [basenameStr fn] ∨
     mediaFilePath mediaSegs fn = mediaSegs ∨
     mediaFilePath mediaSegs fn = mediaSegs.dropLast) ∧
    (isFile (mediaFilePath mediaSegs fn) = true →
      mediaFilePath mediaSegs fn = mediaSegs ++ [basenameStr fn] ∧
      basenameStr fn ≠ "" ∧ basenameStr fn ≠ "." ∧ basenameStr fn ≠ "..") := by
  have hsplit : mediaFilePath mediaSegs fn =
      resolveStep mediaSegs (basenameStr fn) := by
    rw [mediaFilePath, resolveSegs, List.foldl_append, List.foldl_cons,
      List.foldl_nil, resolve_foldl_clean mediaSegs [] hclean, List.nil_append]
  by_cases h1 : basenameStr fn = "" ∨ basenameStr fn = "."
  · have hres : mediaFilePath mediaSegs fn = mediaSegs := by
      rw [hsplit, resolveStep, if_pos h1]
    refine ⟨basenameStr_no_slash fn, Or.inr (Or.inl hres), ?_⟩
    intro hfile
    rw [hres, hdir] at hfile
    exact absurd hfile (by simp)
  · by_cases h2 : basenameStr fn = ".."
    · have hres : mediaFilePath mediaSegs fn = mediaSegs.dropLast := by
        rw [hsplit, resolveStep, if_neg h1, if_pos h2]
      refine ⟨basenameStr_no_slash fn, Or.inr (Or.inr hres), ?_⟩
      intro hfile
      rw [hres, hparent] at hfile
      exact absurd hfile (by simp)
    · have hres : mediaFilePath mediaSegs fn = mediaSegs ++ [basenameStr fn] := by
        rw [hsplit, resolveStep, if_neg h1, if_neg h2]
      refine ⟨basenameStr_no_slash fn, Or.inl hres, ?_⟩
      intro _
      exact ⟨hres, fun h => h1 (Or.inl h), fun h => h1 (Or.inr h), h2⟩

/-- Concrete instantiation of C10: a traversal attempt `../../etc/passwd`
resolves to the basename `passwd` inside the media directory, and `..`
resolves to the (non-file) parent directory so the read fails. -/
theorem C10_media_path_confined_witness :
    ((∀ c ∈ (basenameStr "../../etc/passwd").data, c ≠ '/') ∧
     (mediaFilePath ["data", "Media"] "../../etc/passwd" =
        ["data", "Media"] ++ [basenameStr "../../etc/passwd"] ∨
      mediaFilePath ["data", "Media"] "../../etc/passwd" = ["data", "Media"] ∨
      mediaFilePath ["data", "Media"] "../../etc/passwd" =
        (["data", "Media"] : List String).dropLast) ∧
     ((fun l => l == (["data", "Media", "evil.png"] : List String))
        (mediaFilePath ["data", "Media"] "../../etc/passwd") = true →
       mediaFilePath ["data", "Media"] "../../etc/passwd" =
         ["data", "Media"] ++ [basenameStr "../../etc/passwd"] ∧
       basenameStr "../../etc/passwd" ≠ "" ∧
       basenameStr "../../etc/passwd" ≠ "." ∧
       basenameStr "../../etc/passwd" ≠ "..")) ∧
    mediaFilePath ["data", "Media"] ".." = ["data"] :=
  ⟨C10_media_path_confined ["data", "Media"] (by decide)
      (fun l => l == (["data", "Media", "evil.png"] : List String))
      (by decide) (by decide) "../../etc/passwd",
   by decide⟩

/-! ### JS number values: decimal printing and parsing

The `Number(...)` / `String(...)` builtins used by the export/import type
coercions, modelled over the finite decimal values `num m e` (the IEEE
doubles of the configuration pipeline are finite binary — hence decimal —
fractions; exponent and hex literal forms are outside the pipeline and parse
as NaN here). -/

/-- The decimal digit character of `d` (for digits below ten). -/
def digitChar (d : Nat) : Char :=
  match d with
  | 0 => '0' | 1 => '1' | 2 => '2' | 3 => '3' | 4 => '4'
  | 5 => '5' | 6 => '6' | 7 => '7' | 8 => '8' | 9 => '9'
  | _ => '*'

/-- Little-endian decimal digits of `n`, computed with explicit fuel so that
the definition reduces by computation. -/
def natDigitsAux : Nat → Nat → List Nat
  | 0, _ => []
  | _ + 1, 0 => []
  | fuel + 1, n + 1 => ((n + 1) % 10) :: natDigitsAux fuel ((n + 1) / 10)

/-- Little-endian decimal digits of `n` (empty for zero). -/
def natDigits (n : Nat) : List Nat := natDigitsAux n n

/-- The decimal digit characters of `n`, most significant first (empty for
zero; padding supplies the leading zero). -/
def natToChars (n : Nat) : List Char :=
  ((natDigits n).map digitChar).reverse

/-- The digit characters of `n` padded with leading zeros to at least
`e + 1` digits. -/
def padDigits (n e : Nat) : List Char :=
  List.replicate (e + 1 - (natToChars n).length) '0' ++ natToChars n

/-- The positional decimal form of `n / 10 ^ e`: the padded digit characters
with the decimal point inserted `e` digits from the right when `e > 0`. -/
def printBody (n : Nat) (e : Nat) : List Char :=
  if e = 0 then padDigits n e
  else (padDigits n e).take ((padDigits n e).length - e) ++
    '.' :: (padDigits n e).drop ((padDigits n e).length - e)

/-- ECMA number-to-string for the finite decimal `m / 10 ^ e`. -/
def printNum (m : Int) (e : Nat) : String :=
  String.mk (if m < 0 then '-' :: printBody m.natAbs e else printBody m.natAbs e)

/-- `String(v)` for a non-string value. -/
def jsToString : Value → String
  | .str s => s
  | .num m e => printNum m e
  | .nan => "NaN"
  | .bool b => if b then "true" else "false"
  | .null => "null"
  | .undef => "undefined"

/-- The numeric value of a most-significant-first digit character list. -/
def charsToNat (cs : List Char) : Nat :=
  cs.foldl (fun a c => 10 * a + (c.toNat - 48)) 0

/-- Normalize a parsed decimal `m / 10 ^ e` by dropping trailing fractional
zeros (JS numbers do not record them). -/
def canonNum (m : Int) : Nat → Value
  | 0 => .num m 0
  | e + 1 => if m % 10 = 0 then canonNum (m / 10) e else .num m (e + 1)

/-- Split an optional `.`-led fraction off the remainder of a numeric
literal. -/
def splitFrac (rest : List Char) : List Char × List Char :=
  match rest with
  | [] => ([], [])
  | c :: r =>
    if c = '.' then (r.takeWhile Char.isDigit, r.dropWhile Char.isDigit)
    else ([], c :: r)

/-- Combine the parsed sign, integer digits and fraction split: anything
left over after the fraction makes the whole literal NaN, as does the
absence of any digit. -/
def psCore (neg : Bool) (ip : List Char) (fr : List Char × List Char) : Value :=
  if fr.2 = [] ∧ ip ++ fr.1 ≠ [] then
    canonNum
      (if neg then -((charsToNat (ip ++ fr.1) : Nat) : Int)
       else ((charsToNat (ip ++ fr.1) : Nat) : Int)) fr.1.length
  else .nan

/-- Parse the unsigned part of a decimal literal: integer digits, optional
fraction. -/
def parseAfterSign (neg : Bool) (cs : List Char) : Value :=
  psCore neg (cs.takeWhile Char.isDigit) (splitFrac (cs.dropWhile Char.isDigit))

/-- The model of `Number(string)`: trim spaces, optional sign, decimal
digits with an optional fraction; the empty (trimmed) string is 0, anything
unparsable is NaN. -/
def parseNumChars (cs : List Char) : Value :=
  let t := ((cs.dropWhile (fun c => c = ' ')).reverse.dropWhile
    (fun c => c = ' ')).reverse
  match t with
  | [] => .num 0 0
  | c :: rest =>
    if c = '-' then parseAfterSign true rest
    else if c = '+' then parseAfterSign false rest
    else parseAfterSign false (c :: rest)

/-- `Number(v)` for an arbitrary value. -/
def jsToNumber : Value → Value
  | .str s => parseNumChars s.data
  | .num m e => .num m e
  | .nan => .nan
  | .bool b => .num (if b then 1 else 0) 0
  | .null => .num 0 0
  | .undef => .nan

/-- `typeof v === "string"`. -/
def isStringTy : Value → Bool
  | .str _ => true
  | _ => false

/-- `typeof v === "number"` (NaN is a number). -/
def isNumberTy : Value → Bool
  | .num _ _ => true
  | .nan => true
  | _ => false

/-- `typeof v === "boolean"`. -/
def isBoolTy : Value → Bool
  | .bool _ => true
  | _ => false

/-- The export/import coercion step: a value already of the declared typeof
is kept, anything else is converted by the matching JS builtin. -/
def coerceTo (t : FType) (v : Value) : Value :=
  match t with
  | .boolean => if isBoolTy v then v else .bool (jsToBool v)
  | .number => if isNumberTy v then v else jsToNumber v
  | .string => if isStringTy v then v else .str (jsToString v)

/-- A decimal pair as it can exist as a runtime JS number: the fractional
exponent is minimal (no trailing fractional zeros recorded). -/
def canonicalNumB (m : Int) (e : Nat) : Bool :=
  e == 0 || !(m % 10 == 0)

/-- Well-formedness of a runtime value: every number is canonical. -/
def valueWF : Value → Bool
  | .num m e => canonicalNumB m e
  | _ => true

example : parseNumChars "1.0".data = .num 1 0 := by decide
example : parseNumChars "1280".data = .num 1280 0 := by decide
example : parseNumChars "".data = .num 0 0 := by decide
example : parseNumChars "video".data = .nan := by decide
example : parseNumChars "-0.5".data = .num (-5) 1 := by decide
example : printNum (-5) 1 = "-0.5" := by decide
example : printNum 48000 0 = "48000" := by decide
example : parseNumChars "NaN".data = .nan := by decide

/-! ### The print/parse round trip on canonical decimals -/

lemma natDigitsAux_eq (fuel : Nat) :
    ∀ n : Nat, n ≤ fuel → natDigitsAux fuel n = Nat.digits 10 n := by
  induction fuel with
  | zero =>
    intro n hn
    have : n = 0 := Nat.le_zero.mp hn
    subst this
    simp [natDigitsAux]
  | succ f ih =>
    intro n hn
    cases n with
    | zero => simp [natDigitsAux]
    | succ n' =>
      rw [natDigitsAux, Nat.digits_def' (by norm_num : 1 < 10) (Nat.succ_pos n')]
      congr 1
      refine ih _ ?_
      have := Nat.div_lt_self (Nat.succ_pos n') (by norm_num : 1 < 10)
      omega

lemma natDigits_eq_digits (n : Nat) : natDigits n = Nat.digits 10 n :=
  natDigitsAux_eq n n le_rfl

lemma natDigits_lt (n : Nat) : ∀ d ∈ natDigits n, d < 10 := by
  rw [natDigits_eq_digits]
  exact fun d hd => Nat.digits_lt_base (by norm_num) hd

lemma digitChar_isDigit {d : Nat} (h : d < 10) : (digitChar d).isDigit = true := by
  interval_cases d <;> rfl

lemma digitChar_toNat {d : Nat} (h : d < 10) : (digitChar d).toNat - 48 = d := by
  interval_cases d <;> rfl

lemma isDigit_not_special {c : Char} (h : c.isDigit = true) :
    c ≠ '-' ∧ c ≠ '+' ∧ c ≠ ' ' ∧ c ≠ '.' := by
  refine ⟨?_, ?_, ?_, ?_⟩ <;> rintro rfl <;> exact absurd h (by decide)

lemma natToChars_all_digit (n : Nat) : ∀ c ∈ natToChars n, c.isDigit = true := by
  intro c hc
  rw [natToChars] at hc
  obtain ⟨d, hd, rfl⟩ := List.mem_map.mp (List.mem_reverse.mp hc)
  exact digitChar_isDigit (natDigits_lt n d hd)

lemma foldl_digitChars (l : List Nat) (h : ∀ d ∈ l, d < 10) :
    charsToNat ((l.map digitChar).reverse) = Nat.ofDigits 10 l := by
  induction l with
  | nil => rfl
  | cons d t ih =>
    have hd : d < 10 := h d (List.mem_cons_self _ _)
    rw [List.map_cons, List.reverse_cons, charsToNat, List.foldl_append,
      List.foldl_cons, List.foldl_nil]
    have hrt := ih (fun x hx => h x (List.mem_cons_of_mem _ hx))
    rw [charsToNat] at hrt
    rw [hrt, digitChar_toNat hd, Nat.ofDigits_cons]
    ring

lemma charsToNat_natToChars (n : Nat) : charsToNat (natToChars n) = n := by
  rw [natToChars, foldl_digitChars _ (natDigits_lt n), natDigits_eq_digits,
    Nat.ofDigits_digits]

lemma charsToNat_pad (k : Nat) (cs : List Char) :
    charsToNat (List.replicate k '0' ++ cs) = charsToNat cs := by
  induction k with
  | zero => rfl
  | succ k ih =>
    rw [List.replicate_succ, List.cons_append, charsToNat, List.foldl_cons]
    show List.foldl _ 0 (List.replicate k '0' ++ cs) = _
    exact ih

lemma takeWhile_append_all {p : Char → Bool} {A B : List Char}
    (h : ∀ a ∈ A, p a = true) : (A ++ B).takeWhile p = A ++ B.takeWhile p := by
  induction A with
  | nil => rfl
  | cons a t ih =>
    rw [List.cons_append, List.takeWhile_cons_of_pos (h a (List.mem_cons_self _ _)),
      ih (fun x hx => h x (List.mem_cons_of_mem _ hx)), List.cons_append]

lemma dropWhile_append_all {p : Char → Bool} {A B : List Char}
    (h : ∀ a ∈ A, p a = true) : (A ++ B).dropWhile p = B.dropWhile p := by
  induction A with
  | nil => rfl
  | cons a t ih =>
    rw [List.cons_append, List.dropWhile_cons_of_pos (h a (List.mem_cons_self _ _)),
      ih (fun x hx => h x (List.mem_cons_of_mem _ hx))]

lemma padDigits_all_digit (n e : Nat) : ∀ c ∈ padDigits n e, c.isDigit = true := by
  intro c hc
  rcases List.mem_append.mp hc with h | h
  · rw [List.eq_of_mem_replicate h]
    rfl
  · exact natToChars_all_digit n c h

lemma padDigits_len (n e : Nat) : e + 1 ≤ (padDigits n e).length := by
  rw [padDigits, List.length_append, List.length_replicate]
  omega

lemma padDigits_ne_nil (n e : Nat) : padDigits n e ≠ [] := by
  intro hh
  have := padDigits_len n e
  rw [hh] at this
  simp at this

lemma charsToNat_padDigits (n e : Nat) : charsToNat (padDigits n e) = n := by
  rw [padDigits, charsToNat_pad, charsToNat_natToChars]

lemma parseAfterSign_printBody (n e : Nat) (neg : Bool) :
    parseAfterSign neg (printBody n e) =
      canonNum (if neg then -(n : Int) else (n : Int)) e := by
  by_cases he : e = 0
  · subst he
    rw [printBody, if_pos rfl]
    have hall := padDigits_all_digit n 0
    have htw : (padDigits n 0).takeWhile Char.isDigit = padDigits n 0 := by
      have := takeWhile_append_all (B := ([] : List Char)) hall
      simpa using this
    have hdw : (padDigits n 0).dropWhile Char.isDigit = [] := by
      have := dropWhile_append_all (B := ([] : List Char)) hall
      simpa using this
    rw [parseAfterSign, htw, hdw]
    have hsf : splitFrac [] = (([] : List Char), ([] : List Char)) := rfl
    rw [hsf, psCore]
    have hcond : (([] : List Char), ([] : List Char)).2 = [] ∧
        padDigits n 0 ++ (([] : List Char), ([] : List Char)).1 ≠ [] := by
      refine ⟨rfl, ?_⟩
      show padDigits n 0 ++ [] ≠ []
      simpa using padDigits_ne_nil n 0
    rw [if_pos hcond]
    show canonNum (if neg = true then -((charsToNat (padDigits n 0 ++ []) : Nat) : Int)
      else ((charsToNat (padDigits n 0 ++ []) : Nat) : Int)) ([] : List Char).length =
      canonNum (if neg = true then -(n : Int) else (n : Int)) 0
    rw [List.append_nil, charsToNat_padDigits]
    rfl
  · rw [printBody, if_neg he]
    have hA : ∀ c ∈ (padDigits n e).take ((padDigits n e).length - e),
        Char.isDigit c = true :=
      fun c hc => padDigits_all_digit n e c (List.take_subset _ _ hc)
    have hB : ∀ c ∈ (padDigits n e).drop ((padDigits n e).length - e),
        Char.isDigit c = true :=
      fun c hc => padDigits_all_digit n e c (List.drop_subset _ _ hc)
    have htw : (((padDigits n e).take ((padDigits n e).length - e)) ++
        '.' :: (padDigits n e).drop ((padDigits n e).length - e)).takeWhile
          Char.isDigit = (padDigits n e).take ((padDigits n e).length - e) := by
      rw [takeWhile_append_all hA, List.takeWhile_cons_of_neg (by decide)]
      simp
    have hdw : (((padDigits n e).take ((padDigits n e).length - e)) ++
        '.' :: (padDigits n e).drop ((padDigits n e).length - e)).dropWhile
          Char.isDigit = '.' :: (padDigits n e).drop ((padDigits n e).length - e) := by
      rw [dropWhile_append_all hA, List.dropWhile_cons_of_neg (by decide)]
    have htwB : ((padDigits n e).drop ((padDigits n e).length - e)).takeWhile
        Char.isDigit = (padDigits n e).drop ((padDigits n e).length - e) := by
      have := takeWhile_append_all (B := ([] : List Char)) hB
      simpa using this
    have hdwB : ((padDigits n e).drop ((padDigits n e).length - e)).dropWhile
        Char.isDigit = [] := by
      have := dropWhile_append_all (B := ([] : List Char)) hB
      simpa using this
    have hsf : splitFrac ('.' :: (padDigits n e).drop ((padDigits n e).length - e)) =
        ((padDigits n e).drop ((padDigits n e).length - e), ([] : List Char)) := by
      rw [splitFrac]
      rw [if_pos rfl, htwB, hdwB]
    rw [parseAfterSign, htw, hdw, hsf, psCore]
    have hAB : (padDigits n e).take ((padDigits n e).length - e) ++
        (padDigits n e).drop ((padDigits n e).length - e) = padDigits n e :=
      List.take_append_drop _ _
    have hcond : ((padDigits n e).drop ((padDigits n e).length - e),
        ([] : List Char)).2 = [] ∧
        (padDigits n e).take ((padDigits n e).length - e) ++
          ((padDigits n e).drop ((padDigits n e).length - e),
           ([] : List Char)).1 ≠ [] := by
      refine ⟨rfl, ?_⟩
      show (padDigits n e).take ((padDigits n e).length - e) ++
        (padDigits n e).drop ((padDigits n e).length - e) ≠ []
      rw [hAB]
      exact padDigits_ne_nil n e
    rw [if_pos hcond]
    show canonNum (if neg = true then
        -((charsToNat ((padDigits n e).take ((padDigits n e).length - e) ++
          (padDigits n e).drop ((padDigits n e).length - e)) : Nat) : Int)
      else ((charsToNat ((padDigits n e).take ((padDigits n e).length - e) ++
          (padDigits n e).drop ((padDigits n e).length - e)) : Nat) : Int))
      ((padDigits n e).drop ((padDigits n e).length - e)).length =
      canonNum (if neg = true then -(n : Int) else (n : Int)) e
    rw [hAB, charsToNat_padDigits, List.length_drop]
    have hlen := padDigits_len n e
    have hee : (padDigits n e).length - ((padDigits n e).length - e) = e := by omega
    rw [hee]

lemma dropWhile_space_eq_self {cs : List Char} (h : ∀ c ∈ cs, c ≠ ' ') :
    cs.dropWhile (fun c => c = ' ') = cs := by
  cases cs with
  | nil => rfl
  | cons c t =>
    exact List.dropWhile_cons_of_neg (by simp [h c (List.mem_cons_self _ _)])

lemma trim_no_space {cs : List Char} (h : ∀ c ∈ cs, c ≠ ' ') :
    ((cs.dropWhile (fun c => c = ' ')).reverse.dropWhile (fun c => c = ' ')).reverse
      = cs := by
  rw [dropWhile_space_eq_self h,
    dropWhile_space_eq_self (fun c hc => h c (List.mem_reverse.mp hc)),
    List.reverse_reverse]

lemma printBody_mem {n e : Nat} {c : Char} (hc : c ∈ printBody n e) :
    c.isDigit = true ∨ c = '.' := by
  rw [printBody] at hc
  split at hc
  · exact Or.inl (padDigits_all_digit n e c hc)
  · rcases List.mem_append.mp hc with h | h
    · exact Or.inl (padDigits_all_digit n e c (List.take_subset _ _ h))
    · rcases List.mem_cons.mp h with rfl | h
      · exact Or.inr rfl
      · exact Or.inl (padDigits_all_digit n e c (List.drop_subset _ _ h))

lemma printBody_ne_nil (n e : Nat) : printBody n e ≠ [] := by
  rw [printBody]
  split
  · exact padDigits_ne_nil n e
  · simp

lemma canonNum_of_canonical {m : Int} {e : Nat} (h : canonicalNumB m e = true) :
    canonNum m e = .num m e := by
  cases e with
  | zero => rfl
  | succ e' =>
    rw [canonNum, if_neg]
    simp [canonicalNumB] at h
    exact fun hh => h (Int.dvd_of_emod_eq_zero hh)

/-- Printing a canonical finite decimal and parsing it back is the
identity: `Number(String(x)) = x`. -/
theorem parse_print {m : Int} {e : Nat} (h : canonicalNumB m e = true) :
    parseNumChars ((printNum m e).data) = .num m e := by
  have hnos : ∀ c ∈ (if m < 0 then '-' :: printBody m.natAbs e
      else printBody m.natAbs e), c ≠ ' ' := by
    intro c hc
    split at hc
    · rcases List.mem_cons.mp hc with rfl | hc
      · decide
      · rcases printBody_mem hc with hd | rfl
        · exact (isDigit_not_special hd).2.2.1
        · decide
    · rcases printBody_mem hc with hd | rfl
      · exact (isDigit_not_special hd).2.2.1
      · decide
  have hdata : (printNum m e).data =
      (if m < 0 then '-' :: printBody m.natAbs e else printBody m.natAbs e) := rfl
  rw [parseNumChars, hdata, trim_no_space hnos]
  by_cases hm : m < 0
  · rw [if_pos hm]
    show parseAfterSign true (printBody m.natAbs e) = Value.num m e
    rw [parseAfterSign_printBody, if_pos rfl]
    have hmm : -(m.natAbs : Int) = m := by omega
    rw [hmm, canonNum_of_canonical h]
  · rw [if_neg hm]
    obtain ⟨c0, rest, hbody⟩ : ∃ c r, printBody m.natAbs e = c :: r := by
      cases hp : printBody m.natAbs e with
      | nil => exact absurd hp (printBody_ne_nil _ _)
      | cons c r => exact ⟨c, r, rfl⟩
    have hc0 : c0.isDigit = true ∨ c0 = '.' :=
      printBody_mem (hbody ▸ List.mem_cons_self c0 rest)
    have hcm : c0 ≠ '-' := by
      rcases hc0 with hd | rfl
      · exact (isDigit_not_special hd).1
      · decide
    have hcp : c0 ≠ '+' := by
      rcases hc0 with hd | rfl
      · exact (isDigit_not_special hd).2.1
      · decide
    rw [hbody]
    show (if c0 = '-' then parseAfterSign true rest
      else if c0 = '+' then parseAfterSign false rest
      else parseAfterSign false (c0 :: rest)) = Value.num m e
    rw [if_neg hcm, if_neg hcp, ← hbody, parseAfterSign_printBody, if_neg (by simp)]
    have hmm : (m.natAbs : Int) = m := by omega
    rw [hmm, canonNum_of_canonical h]

lemma canonNum_WF (m : Int) (e : Nat) : valueWF (canonNum m e) = true := by
  induction e generalizing m with
  | zero => rfl
  | succ e' ih =>
    rw [canonNum]
    split
    · exact ih (m / 10)
    · rename_i hne
      simp [valueWF, canonicalNumB, hne]

lemma psCore_WF (neg : Bool) (ip : List Char) (fr : List Char × List Char) :
    valueWF (psCore neg ip fr) = true := by
  rw [psCore]
  split
  · exact canonNum_WF _ _
  · rfl

lemma parseAfterSign_WF (neg : Bool) (cs : List Char) :
    valueWF (parseAfterSign neg cs) = true :=
  psCore_WF neg _ _

lemma parseNumChars_WF (cs : List Char) : valueWF (parseNumChars cs) = true := by
  rw [parseNumChars]
  cases ht : ((cs.dropWhile (fun c => c = ' ')).reverse.dropWhile
      (fun c => c = ' ')).reverse with
  | nil => rfl
  | cons c rest =>
    show valueWF (if c = '-' then parseAfterSign true rest
      else if c = '+' then parseAfterSign false rest
      else parseAfterSign false (c :: rest)) = true
    split
    · exact parseAfterSign_WF _ _
    · split
      · exact parseAfterSign_WF _ _
      · exact parseAfterSign_WF _ _

lemma jsToNumber_WF {v : Value} (h : valueWF v = true) :
    valueWF (jsToNumber v) = true := by
  cases v with
  | str s => exact parseNumChars_WF s.data
  | num m e => exact h
  | nan => rfl
  | bool b => cases b <;> rfl
  | null => rfl
  | undef => rfl

/-! ### The semantic round trip of the schema's coercion pairs -/

/-- The internal/exported type pairs occurring in the schema. -/
def pairOK : FType → FType → Bool
  | .string, .string => true
  | .boolean, .boolean => true
  | .number, .number => true
  | .string, .number => true
  | _, _ => false

lemma fields_pairOK : ∀ f ∈ fields, pairOK f.itype f.etype = true := by decide

lemma canonNum_isNum (m : Int) (e : Nat) : isNumberTy (canonNum m e) = true := by
  induction e generalizing m with
  | zero => rfl
  | succ e' ih =>
    rw [canonNum]
    split
    · exact ih (m / 10)
    · rfl

lemma psCore_isNum (neg : Bool) (ip : List Char) (fr : List Char × List Char) :
    isNumberTy (psCore neg ip fr) = true := by
  rw [psCore]
  split
  · exact canonNum_isNum _ _
  · rfl

lemma parseNumChars_isNum (cs : List Char) :
    isNumberTy (parseNumChars cs) = true := by
  rw [parseNumChars]
  cases ht : ((cs.dropWhile (fun c => c = ' ')).reverse.dropWhile
      (fun c => c = ' ')).reverse with
  | nil => rfl
  | cons c rest =>
    show isNumberTy (if c = '-' then parseAfterSign true rest
      else if c = '+' then parseAfterSign false rest
      else parseAfterSign false (c :: rest)) = true
    split
    · exact psCore_isNum _ _ _
    · split
      · exact psCore_isNum _ _ _
      · exact psCore_isNum _ _ _

lemma jsToNumber_isNum (v : Value) : isNumberTy (jsToNumber v) = true := by
  cases v with
  | str s => exact parseNumChars_isNum s.data
  | num m e => rfl
  | nan => rfl
  | bool b => cases b <;> rfl
  | null => rfl
  | undef => rfl

lemma coerce_string_isStr (v : Value) : isStringTy (coerceTo .string v) = true := by
  cases v <;> rfl

lemma coerce_bool_isBool (v : Value) : isBoolTy (coerceTo .boolean v) = true := by
  cases v <;> rfl

lemma coerce_num_isNum (v : Value) : isNumberTy (coerceTo .number v) = true := by
  cases v with
  | str s => exact parseNumChars_isNum s.data
  | num m e => rfl
  | nan => rfl
  | bool b => cases b <;> rfl
  | null => rfl
  | undef => rfl

lemma coerce_id_of_isStr {v : Value} (h : isStringTy v = true) :
    coerceTo .string v = v := by
  show (if isStringTy v then v else .str (jsToString v)) = v
  rw [if_pos h]

lemma coerce_id_of_isBool {v : Value} (h : isBoolTy v = true) :
    coerceTo .boolean v = v := by
  show (if isBoolTy v then v else .bool (jsToBool v)) = v
  rw [if_pos h]

lemma coerce_id_of_isNum {v : Value} (h : isNumberTy v = true) :
    coerceTo .number v = v := by
  show (if isNumberTy v then v else jsToNumber v) = v
  rw [if_pos h]

lemma coerceNum_WF {v : Value} (h : valueWF v = true) :
    valueWF (coerceTo .number v) = true := by
  show valueWF (if isNumberTy v then v else jsToNumber v) = true
  split
  · exact h
  · exact jsToNumber_WF h

/-- For every type pair of the schema, coercing the round-tripped value back
to the exported type recovers the exported semantic value:
`coerce_et (coerce_it (coerce_et v)) = coerce_et v`. -/
lemma sem_roundtrip {it et : FType} {v : Value} (hok : pairOK it et = true)
    (hwf : valueWF v = true) :
    coerceTo et (coerceTo it (coerceTo et v)) = coerceTo et v := by
  cases it <;> cases et <;> try exact absurd hok (by decide)
  · -- string / string
    rw [coerce_id_of_isStr (coerce_string_isStr v),
      coerce_id_of_isStr (coerce_string_isStr v)]
  · -- string / number
    have hn := coerce_num_isNum v
    have hwfn := coerceNum_WF hwf
    cases hw : coerceTo .number v with
    | num m e =>
      have hcanon : canonicalNumB m e = true := by
        rw [hw] at hwfn
        exact hwfn
      show coerceTo .number (coerceTo .string (.num m e)) = Value.num m e
      show coerceTo .number (.str (printNum m e)) = Value.num m e
      show parseNumChars (printNum m e).data = Value.num m e
      exact parse_print hcanon
    | nan =>
      show coerceTo .number (coerceTo .string .nan) = Value.nan
      decide
    | str s => rw [hw] at hn; exact absurd hn (by simp [isNumberTy])
    | bool b => rw [hw] at hn; exact absurd hn (by simp [isNumberTy])
    | null => rw [hw] at hn; exact absurd hn (by decide)
    | undef => rw [hw] at hn; exact absurd hn (by decide)
  · -- number / number
    rw [coerce_id_of_isNum (coerce_num_isNum v),
      coerce_id_of_isNum (coerce_num_isNum v)]
  · -- boolean / boolean
    rw [coerce_id_of_isBool (coerce_bool_isBool v),
      coerce_id_of_isBool (coerce_bool_isBool v)]

/-! ### Export and import of the portable YAML configuration -/

/-- One exported YAML block: every schema field rendered under its external
name after coercion to the exported type. (The YAML scalar layer round-trips
these values unchanged: strings are force-quoted, numbers and booleans are
plain scalars, so the file is modelled by its structured content.) -/
def exportBrowser (o : Obj) : Obj :=
  fields.map (fun f => (f.ename, coerceTo f.etype ((getv o f.iname).getD .undef)))

/-- `exportConfig`: every record is exported with its `id` removed first. -/
def exportBrowsers (bs : List Obj) : List Obj :=
  bs.map (fun b => exportBrowser (delv b "id"))

/-- The per-field import loop: each present external name is coerced to the
internal type, the external key deleted and the internal key assigned. -/
def importFold : List Field → Obj → Obj
  | [], o => o
  | f :: ft, o =>
    importFold ft
      (match getv o f.ename with
       | none => o
       | some v => setv (delv o f.ename) f.iname (coerceTo f.itype v))

/-- `importConfig` per record: assign a fresh id when absent, fold every
schema field from external to internal form, silently discard the legacy
Output1 fields, then sanitize. -/
def importBrowser (o : Obj) (newId : String) : Obj :=
  let o1 := if getv o "id" = none then setv o "id" (.str newId) else o
  let o2 := importFold fields o1
  let o3 := legacyFields.foldl (fun o k => delv o k) o2
  (sanitizeConfig o3).1

/-- Import a record list; `fresh i` is the id generated for the `i`-th
record. -/
def importBrowsersAux (fresh : Nat → String) : List Obj → Nat → List Obj
  | [], _ => []
  | b :: rest, i => importBrowser b (fresh i) :: importBrowsersAux fresh rest (i + 1)

/-- Import a whole browser list with freshly generated ids. -/
def importBrowsers (bs : List Obj) (fresh : Nat → String) : List Obj :=
  importBrowsersAux fresh bs 0

/-! ### Structural lemmas for the import pipeline -/

lemma getv_delv_ne {o : Obj} {k k' : String} (h : k ≠ k') :
    getv (delv o k') k = getv o k := by
  rw [delv_eq_filter]
  have := getv_filter_keyPred (fun s => !(s == k')) o k
  rw [this, if_pos (by simp [h])]

lemma getv_of_forall_ne {o : Obj} {k : String} (h : ∀ p ∈ o, p.1 ≠ k) :
    getv o k = none := by
  rw [getv, List.find?_eq_none.mpr (fun p hp => by simp [h p hp])]
  rfl

lemma setv_absent {o : Obj} {k : String} (v : Value) (h : getv o k = none) :
    setv o k v = o ++ [(k, v)] := by
  rw [setv, if_neg]
  rw [any_key_eq_isSome, h]
  simp

lemma delv_eq_self {o : Obj} {k : String} (h : ∀ p ∈ o, p.1 ≠ k) :
    delv o k = o :=
  List.filter_eq_self.mpr (fun p hp => by simp [h p hp])

lemma delv_cons_head (k : String) (v : Value) (t : Obj) :
    delv ((k, v) :: t) k = delv t k := by
  rw [delv_eq_filter, delv_eq_filter, List.filter_cons_of_neg (by simp)]

lemma getv_cons_self (k : String) (v : Value) (t : Obj) :
    getv ((k, v) :: t) k = some v := by
  rw [getv_cons, if_pos rfl]

lemma foldl_delv_eq_self {ls : List String} {o : Obj}
    (h : ∀ l ∈ ls, ∀ p ∈ o, p.1 ≠ l) : ls.foldl (fun o k => delv o k) o = o := by
  induction ls with
  | nil => rfl
  | cons l lt ih =>
    rw [List.foldl_cons, delv_eq_self (h l (List.mem_cons_self _ _))]
    exact ih (fun l' hl' => h l' (List.mem_cons_of_mem _ hl'))

lemma importFold_spec :
    ∀ (fs : List Field) (w : Field → Value) (rest : Obj),
      (fs.map (fun f => f.ename)).Nodup →
      (fs.map (fun f => f.iname)).Nodup →
      (∀ f ∈ fs, ∀ g ∈ fs, f.iname ≠ g.ename) →
      (∀ f ∈ fs, ∀ p ∈ rest, p.1 ≠ f.ename ∧ p.1 ≠ f.iname) →
      importFold fs (fs.map (fun f => (f.ename, w f)) ++ rest) =
        rest ++ fs.map (fun f => (f.iname, coerceTo f.itype (w f))) := by
  intro fs
  induction fs with
  | nil =>
    intro w rest _ _ _ _
    simp [importFold]
  | cons f ft ih =>
    intro w rest hen hin hcross hrest
    rw [List.map_cons, List.nodup_cons] at hen hin
    rw [List.map_cons, List.cons_append, importFold]
    have hget : getv ((f.ename, w f) :: (ft.map (fun g => (g.ename, w g)) ++ rest))
        f.ename = some (w f) := getv_cons_self _ _ _
    rw [hget]
    have hdel : delv ((f.ename, w f) :: (ft.map (fun g => (g.ename, w g)) ++ rest))
        f.ename = ft.map (fun g => (g.ename, w g)) ++ rest := by
      rw [delv_cons_head]
      refine delv_eq_self (fun p hp => ?_)
      rcases List.mem_append.mp hp with hm | hm
      · obtain ⟨g, hg, rfl⟩ := List.mem_map.mp hm
        intro hh
        exact hen.1 (hh ▸ List.mem_map_of_mem (fun x => x.ename) hg)
      · exact (hrest f (List.mem_cons_self _ _) p hm).1
    rw [hdel]
    have habs : getv (ft.map (fun g => (g.ename, w g)) ++ rest) f.iname = none := by
      refine getv_of_forall_ne (fun p hp => ?_)
      rcases List.mem_append.mp hp with hm | hm
      · obtain ⟨g, hg, rfl⟩ := List.mem_map.mp hm
        intro hh
        exact hcross f (List.mem_cons_self _ _) g (List.mem_cons_of_mem _ hg) hh.symm
      · exact (hrest f (List.mem_cons_self _ _) p hm).2
    show importFold ft
        (setv (ft.map (fun g => (g.ename, w g)) ++ rest) f.iname
          (coerceTo f.itype (w f))) =
      rest ++ (f :: ft).map (fun g => (g.iname, coerceTo g.itype (w g)))
    rw [setv_absent _ habs, List.append_assoc]
    rw [ih w (rest ++ [(f.iname, coerceTo f.itype (w f))]) hen.2 hin.2
      (fun f' hf' g' hg' => hcross f' (List.mem_cons_of_mem _ hf')
        g' (List.mem_cons_of_mem _ hg')) ?_]
    · rw [List.append_assoc]
      simp
    · intro f' hf' p hp
      rcases List.mem_append.mp hp with hm | hm
      · exact hrest f' (List.mem_cons_of_mem _ hf') p hm
      · rcases List.mem_singleton.mp hm with rfl
        constructor
        · exact hcross f (List.mem_cons_self _ _) f' (List.mem_cons_of_mem _ hf')
        · intro hh
          have hh' : f.iname = f'.iname := hh
          have hmm : f'.iname ∈ ft.map (fun x => x.iname) :=
            List.mem_map_of_mem (fun x => x.iname) hf'
          exact hin.1 (hh' ▸ hmm)

lemma padDigits_head (n e : Nat) :
    ∃ c r, padDigits n e = c :: r ∧ c.isDigit = true := by
  cases hp : padDigits n e with
  | nil => exact absurd hp (padDigits_ne_nil n e)
  | cons c r =>
    refine ⟨c, r, rfl, padDigits_all_digit n e c ?_⟩
    rw [hp]
    exact List.mem_cons_self _ _

lemma printBody_head (n e : Nat) :
    ∃ c r, printBody n e = c :: r ∧ c.isDigit = true := by
  obtain ⟨c, r, hp, hd⟩ := padDigits_head n e
  rw [printBody]
  split
  · exact ⟨c, r, hp, hd⟩
  · rename_i he
    have hlen := padDigits_len n e
    obtain ⟨k, hk⟩ : ∃ k, (padDigits n e).length - e = k + 1 :=
      ⟨(padDigits n e).length - e - 1, by omega⟩
    refine ⟨c, r.take k ++ '.' ::
      (padDigits n e).drop ((padDigits n e).length - e), ?_, hd⟩
    rw [hk, hp, List.take_succ_cons, List.cons_append]

lemma printNum_ne_video (m : Int) (e : Nat) : printNum m e ≠ "video" := by
  intro h
  have hd : (if m < 0 then '-' :: printBody m.natAbs e
      else printBody m.natAbs e) = "video".data := congrArg String.data h
  have hv : "video".data = ['v', 'i', 'd', 'e', 'o'] := by decide
  obtain ⟨c, r, hb, hdig⟩ := printBody_head m.natAbs e
  by_cases hm : m < 0
  · rw [if_pos hm, hv] at hd
    injection hd with h1 _
    exact absurd h1 (by decide)
  · rw [if_neg hm, hb, hv] at hd
    injection hd with h1 _
    rw [h1] at hdig
    exact absurd hdig (by decide)

lemma jsToString_ne_video {v : Value} (h : isStringTy v = false) :
    jsToString v ≠ "video" := by
  cases v with
  | str s => simp [isStringTy] at h
  | num m e => exact printNum_ne_video m e
  | nan => decide
  | bool b => cases b <;> decide
  | null => decide
  | undef => decide

lemma getv_map_iname {fs : List Field} {u : Field → Value}
    (hnd : (fs.map (fun f => f.iname)).Nodup) {f : Field} (hf : f ∈ fs) :
    getv (fs.map (fun g => (g.iname, u g))) f.iname = some (u f) := by
  induction fs with
  | nil => simp at hf
  | cons g gt ih =>
    rw [List.map_cons, List.nodup_cons] at hnd
    rw [List.map_cons, getv_cons]
    rcases List.mem_cons.mp hf with rfl | hf'
    · rw [if_pos rfl]
    · have hne : g.iname ≠ f.iname := by
        intro hh
        exact hnd.1 (hh ▸ List.mem_map_of_mem (fun x => x.iname) hf')
      rw [if_neg hne]
      exact ih hnd.2 hf'

lemma getv_WF {o : Obj} (h : o.all (fun p => valueWF p.2) = true) (k : String) :
    valueWF ((getv o k).getD .undef) = true := by
  cases hg : getv o k with
  | none => rfl
  | some v =>
    rw [Option.getD_some]
    rw [getv] at hg
    cases hf : o.find? (fun p => p.1 == k) with
    | none => rw [hf] at hg; simp at hg
    | some p =>
      rw [hf] at hg
      simp at hg
      have hm := List.mem_of_find?_eq_some hf
      have := (List.all_eq_true.mp h) p hm
      rw [← hg]
      exact this

/-! ### C4: the export/import round trip -/

/-- A registry configuration record as the invariant keeps it: all schema
fields present, only schema keys plus `id`, no un-migrated deprecated
input-type value, and every number value canonical. -/
def sanitizedObj (o : Obj) : Bool :=
  fields.all (fun f => (getv o f.iname).isSome) &&
  (keysOf o).all keepKey &&
  !(getv o "it" == some (.str "video")) &&
  o.all (fun p => valueWF p.2)

lemma importBrowser_export {o : Obj} (hit : getv o "it" ≠ some (.str "video"))
    (newId : String) :
    importBrowser (exportBrowser (delv o "id")) newId =
      ("id", .str newId) ::
        fields.map (fun g => (g.iname,
          coerceTo g.itype (coerceTo g.etype
            ((getv (delv o "id") g.iname).getD .undef)))) := by
  have hexp : exportBrowser (delv o "id") =
      fields.map (fun g => (g.ename,
        coerceTo g.etype ((getv (delv o "id") g.iname).getD .undef))) := rfl
  have hid : getv (exportBrowser (delv o "id")) "id" = none := by
    rw [hexp]
    refine getv_of_forall_ne ?_
    intro p hp
    obtain ⟨g, hg, rfl⟩ := List.mem_map.mp hp
    have hne : ∀ g ∈ fields, g.ename ≠ "id" := by decide
    exact hne g hg
  have hfold := importFold_spec fields
    (fun g => coerceTo g.etype ((getv (delv o "id") g.iname).getD .undef))
    [("id", .str newId)] (by decide) (by decide) (by decide)
    (by
      intro f hf p hp
      rcases List.mem_singleton.mp hp with rfl
      have hids : ∀ f ∈ fields, "id" ≠ f.ename ∧ "id" ≠ f.iname := by decide
      exact hids f hf)
  rw [List.singleton_append] at hfold
  have hlegacy : legacyFields.foldl (fun o k => delv o k)
      (("id", Value.str newId) ::
        fields.map (fun g => (g.iname,
          coerceTo g.itype (coerceTo g.etype
            ((getv (delv o "id") g.iname).getD .undef))))) =
      ("id", Value.str newId) ::
        fields.map (fun g => (g.iname,
          coerceTo g.itype (coerceTo g.etype
            ((getv (delv o "id") g.iname).getD .undef)))) := by
    refine foldl_delv_eq_self ?_
    intro l hl p hp
    rcases List.mem_cons.mp hp with rfl | hp
    · have : ∀ l ∈ legacyFields, l ≠ "id" := by decide
      exact fun hh => this l hl hh.symm
    · obtain ⟨g, hg, rfl⟩ := List.mem_map.mp hp
      have : ∀ l ∈ legacyFields, ∀ g ∈ fields, g.iname ≠ l := by decide
      exact this l hl g hg
  have hfieldsne : ∀ f ∈ fields, f.iname ≠ "id" := by decide
  have hpresent : ∀ f ∈ fields,
      getv (("id", Value.str newId) ::
        fields.map (fun g => (g.iname,
          coerceTo g.itype (coerceTo g.etype
            ((getv (delv o "id") g.iname).getD .undef)))))
        f.iname ≠ none := by
    intro f hf
    rw [getv_cons, if_neg (fun hh => hfieldsne f hf hh.symm)]
    rw [getv_map_iname (by decide) hf]
    simp
  have hkeys : ∀ k ∈ keysOf (("id", Value.str newId) ::
      fields.map (fun g => (g.iname,
        coerceTo g.itype (coerceTo g.etype
          ((getv (delv o "id") g.iname).getD .undef))))),
      keepKey k = true := by
    intro k hk
    rw [keysOf, List.map_cons] at hk
    rcases List.mem_cons.mp hk with rfl | hk
    · rfl
    · rw [List.map_map] at hk
      obtain ⟨g, hg, rfl⟩ := List.mem_map.mp hk
      exact fields_iname_keep g hg
  have hitf : getv (("id", Value.str newId) ::
      fields.map (fun g => (g.iname,
        coerceTo g.itype (coerceTo g.etype
          ((getv (delv o "id") g.iname).getD .undef)))))
      "it" ≠ some (.str "video") := by
    rw [getv_cons, if_neg (by decide : ¬("id" = "it"))]
    have hitmem : (⟨"it", .string, .str "url", .string, "InputType"⟩ : Field)
        ∈ fields := by decide
    have := getv_map_iname
      (u := fun g => coerceTo g.itype (coerceTo g.etype
        ((getv (delv o "id") g.iname).getD .undef)))
      (by decide) hitmem
    rw [this]
    show some (coerceTo .string (coerceTo .string
      ((getv (delv o "id") "it").getD .undef))) ≠ some (.str "video")
    rw [coerce_id_of_isStr (coerce_string_isStr _)]
    rw [getv_delv_ne (by decide : "it" ≠ "id")]
    intro hh
    injection hh with hh
    cases hx : getv o "it" with
    | none =>
      rw [hx] at hh
      exact absurd hh (by decide)
    | some xv =>
      rw [hx, Option.getD_some] at hh
      cases xv with
      | str s =>
        have : coerceTo FType.string (Value.str s) = Value.str s := rfl
        rw [this] at hh
        rw [hx] at hit
        exact hit (by rw [hh])
      | num m e => exact jsToString_ne_video (v := .num m e) rfl (by injection hh)
      | nan => exact jsToString_ne_video (v := .nan) rfl (by injection hh)
      | bool b => exact jsToString_ne_video (v := .bool b) rfl (by injection hh)
      | null => exact jsToString_ne_video (v := .null) rfl (by injection hh)
      | undef => exact jsToString_ne_video (v := .undef) rfl (by injection hh)
  have hfix := sanitize_fix hpresent hkeys hitf
  show (sanitizeConfig (legacyFields.foldl (fun o k => delv o k)
      (importFold fields
        (if getv (exportBrowser (delv o "id")) "id" = none then
          setv (exportBrowser (delv o "id")) "id" (.str newId)
        else exportBrowser (delv o "id"))))).1 = _
  rw [if_pos hid, setv_absent _ hid, hexp, hfold, hlegacy, hfix]

lemma roundtrip_single {o : Obj} (hs : sanitizedObj o = true) (newId : String) :
    ∀ f ∈ fields,
      coerceTo f.etype
        ((getv (importBrowser (exportBrowser (delv o "id")) newId) f.iname).getD
          .undef) =
      coerceTo f.etype ((getv o f.iname).getD .undef) := by
  intro f hf
  rw [sanitizedObj] at hs
  simp only [Bool.and_eq_true] at hs
  have hit : getv o "it" ≠ some (.str "video") := by
    have := hs.1.2
    intro hh
    rw [hh] at this
    simp at this
  have hwf : valueWF ((getv o f.iname).getD .undef) = true :=
    getv_WF hs.2 f.iname
  rw [importBrowser_export hit newId, getv_cons,
    if_neg (by
      have : ∀ f ∈ fields, f.iname ≠ "id" := by decide
      exact fun hh => this f hf hh.symm),
    getv_map_iname (by decide) hf, Option.getD_some,
    getv_delv_ne (by
      have : ∀ f ∈ fields, f.iname ≠ "id" := by decide
      exact this f hf)]
  exact sem_roundtrip (fields_pairOK f hf) hwf

lemma C4_aux (fresh : Nat → String) :
    ∀ (bs : List Obj), (∀ o ∈ bs, sanitizedObj o = true) → ∀ i,
      List.Forall₂ (fun o o' => ∀ f ∈ fields,
        coerceTo f.etype ((getv o' f.iname).getD .undef) =
          coerceTo f.etype ((getv o f.iname).getD .undef))
        bs (importBrowsersAux fresh (exportBrowsers bs) i) := by
  intro bs
  induction bs with
  | nil => intro _ i; exact List.Forall₂.nil
  | cons b bt ih =>
    intro hs i
    rw [exportBrowsers, List.map_cons]
    rw [importBrowsersAux]
    refine List.Forall₂.cons ?_ (ih (fun o ho => hs o (List.mem_cons_of_mem _ ho)) (i + 1))
    exact roundtrip_single (hs b (List.mem_cons_self _ _)) (fresh i)

/-- The claim C4: for every set of sanitized instance configs (all schema
fields present, only schema keys plus `id`, no un-migrated deprecated value,
canonical numbers — the shape in which the registry invariant keeps every
config, in particular free of deprecated/legacy keys), exporting the set to
the portable YAML form and importing it back yields configs whose
schema-defined fields carry the same semantic values as before, where the
semantic value of a field is its value under the field's declared exported
type coercion. -/
theorem C4_export_import_roundtrip (bs : List Obj) (fresh : Nat → String)
    (hsan : ∀ o ∈ bs, sanitizedObj o = true) :
    List.Forall₂ (fun o o' => ∀ f ∈ fields,
      coerceTo f.etype ((getv o' f.iname).getD .undef) =
        coerceTo f.etype ((getv o f.iname).getD .undef))
      bs (importBrowsers (exportBrowsers bs) fresh) :=
  C4_aux fresh bs hsan 0

/-- Concrete instantiation of C4: the default config round-trips. -/
theorem C4_export_import_roundtrip_witness :
    List.Forall₂ (fun o o' => ∀ f ∈ fields,
      coerceTo f.etype ((getv o' f.iname).getD .undef) =
        coerceTo f.etype ((getv o f.iname).getD .undef))
      [(sanitizeConfig [("t", .str "Cam1")]).1]
      (importBrowsers (exportBrowsers [(sanitizeConfig [("t", .str "Cam1")]).1])
        (fun _ => "0123456789ABCDEF")) :=
  C4_export_import_roundtrip [(sanitizeConfig [("t", .str "Cam1")]).1]
    (fun _ => "0123456789ABCDEF")
    (by decide)

/-! ### C5: import failure is all-or-nothing -/

/-- `importConfig`: the file is read and run through the YAML parser —
a thrown parse error is the `.error` case — a null document becomes the
empty list, every record is imported with a fresh id where needed, and only
then is the whole set saved; a parse failure returns `false` immediately
(the success path returns no value). -/
def importConfigSt (parsed : Except Unit (Option (List Obj)))
    (fresh : Nat → String) (st : St) : St × Option Bool :=
  match parsed with
  | .error _ => (st, some false)
  | .ok v => (saveConfigs st (importBrowsers (v.getD []) fresh), none)

/-- The claim C5: when the YAML parser fails, import returns the boolean
`false` and the stored configuration state is exactly what it was — same
stored set, same version, hence no save and no partial application. -/
theorem C5_import_error_atomic (fresh : Nat → String) (st : St) :
    importConfigSt (Except.error ()) fresh st = (st, some false) ∧
    ((importConfigSt (Except.error ()) fresh st).1).stored = st.stored ∧
    ((importConfigSt (Except.error ()) fresh st).1).configVersion =
      st.configVersion :=
  ⟨rfl, rfl, rfl⟩

/-! ### C7: every successful configuration mutation saves and bumps -/

/-- The claim C7: every successful configuration mutation performs a storage
write of the full instance-config set and bumps the configuration version
counter by exactly one — the WebUI create endpoint; the WebUI patch endpoint
(success means status 200, while a failing patch, such as one whose restart
throws on an invalidated config, answers 404/500 and performs no save, the
store staying untouched); the WebUI delete of an existing id; the local
add, mod (of an existing id) and del — del succeeding also on a running
instance, which it stops first — with the renderer's follow-up
`browsers-save` call modelled from the spec; and the config-affecting bulk
operations: a successful import (a full replace of the set) and the local
prune. `saveConfigs` itself bumps the version on every save, so the counter
grows monotonically with the saves. -/
theorem C7_mutations_save_and_bump :
    (∀ (st : St) (bs : List Obj),
      (saveConfigs st bs).configVersion = st.configVersion + 1 ∧
      (saveConfigs st bs).stored = some bs) ∧
    (∀ (reg : Registry) (st : St) (newId : String) (body : Obj),
      ((webuiCreate reg st newId body).2.2).configVersion = st.configVersion + 1 ∧
      ((webuiCreate reg st newId body).2.2).stored =
        some (regToCfgArray (webuiCreate reg st newId body).2.1)) ∧
    (∀ (reg : Registry) (st : St) (id : String) (body : Obj) (ok : Bool),
      ((webuiPatch reg st id body ok).1 = 200 →
        ((webuiPatch reg st id body ok).2.2).configVersion =
          st.configVersion + 1 ∧
        ((webuiPatch reg st id body ok).2.2).stored =
          some (regToCfgArray (webuiPatch reg st id body ok).2.1)) ∧
      ((webuiPatch reg st id body ok).1 ≠ 200 →
        (webuiPatch reg st id body ok).2.2 = st)) ∧
    (∀ (reg : Registry) (st : St) (id : String) (b : Inst),
      lookupR reg id = some b →
      ((webuiDelete reg st id).2.2).configVersion = st.configVersion + 1 ∧
      ((webuiDelete reg st id).2.2).stored =
        some (regToCfgArray (webuiDelete reg st id).2.1)) ∧
    (∀ (reg : Registry) (st : St) (id : String) (cfg : Obj) (b : Inst),
      ((localAdd reg st id cfg).2).configVersion = st.configVersion + 1 ∧
      ((localAdd reg st id cfg).2).stored =
        some (regToCfgArray (localAdd reg st id cfg).1) ∧
      (lookupR reg id = some b →
        ((localMod reg st id cfg).2).configVersion = st.configVersion + 1 ∧
        ((localMod reg st id cfg).2).stored =
          some (regToCfgArray (localMod reg st id cfg).1))) ∧
    (∀ (reg : Registry) (st : St) (id : String),
      ((localDel reg st id).2).configVersion = st.configVersion + 1 ∧
      ((localDel reg st id).2).stored =
        some (regToCfgArray (localDel reg st id).1)) ∧
    (∀ (v : Option (List Obj)) (fresh : Nat → String) (st : St),
      ((importConfigSt (Except.ok v) fresh st).1).configVersion =
        st.configVersion + 1 ∧
      ((importConfigSt (Except.ok v) fresh st).1).stored =
        some (importBrowsers (v.getD []) fresh)) ∧
    (∀ (reg : Registry) (st : St),
      ((localPrune reg st).2).configVersion = st.configVersion + 1 ∧
      ((localPrune reg st).2).stored =
        some (regToCfgArray (localPrune reg st).1)) := by
  refine ⟨fun st bs => ⟨rfl, rfl⟩, fun reg st newId body => ⟨rfl, rfl⟩,
    ?_, ?_, ?_, ?_, fun v fresh st => ⟨rfl, rfl⟩, fun reg st => ⟨rfl, rfl⟩⟩
  · intro reg st id body ok
    cases hl : lookupR reg id with
    | none =>
      rw [webuiPatch]
      simp [hl]
    | some b =>
      by_cases hr : b.running
      · rw [webuiPatch]
        have hmod : ctlMod (setRunning reg id false) id
            (sanitizeConfig (objAssign b.cfg body)).1 =
            ((setRunning reg id false).map
              (fun p => if p.1 == id then
                (p.1, ⟨(sanitizeConfig (objAssign b.cfg body)).1, p.2.running⟩)
                else p), none) := by
          rw [ctlMod, lookupR_setRunning_self false hl]
        simp only [hl, hr, if_true, ctlStop_of_running hl hr, hmod, patchFinish]
        split
        · refine ⟨fun h => ?_, fun _ => rfl⟩
          simp at h
        · refine ⟨fun _ => ⟨rfl, rfl⟩, fun h => absurd rfl h⟩
      · have hrf : b.running = false := Bool.eq_false_iff.mpr hr
        rw [webuiPatch]
        have hmod : ctlMod reg id (sanitizeConfig (objAssign b.cfg body)).1 =
            (reg.map (fun p => if p.1 == id then
              (p.1, ⟨(sanitizeConfig (objAssign b.cfg body)).1, p.2.running⟩)
              else p), none) := by
          rw [ctlMod, hl]
        simp [hl, hrf, hmod, patchFinish, saveBrowsersToStore, saveConfigs]
  · intro reg st id b h
    rw [webuiDelete, h]
    exact ⟨rfl, rfl⟩
  · intro reg st id cfg b
    refine ⟨rfl, rfl, fun h => ?_⟩
    have hcm : ctlMod reg id cfg =
        (reg.map (fun p => if p.1 == id then (p.1, ⟨cfg, p.2.running⟩) else p),
         none) := by
      rw [ctlMod, h]
    rw [localMod, hcm]
    exact ⟨rfl, rfl⟩
  · intro reg st id
    have hnt := ctlDel_no_throw reg id
    cases hd : ctlDel reg id with
    | mk reg1 e =>
      rw [hd] at hnt
      cases e with
      | none =>
        rw [localDel, hd]
        exact ⟨rfl, rfl⟩
      | some msg => simp at hnt

/-- Concrete instantiation of C7: a successful patch saves and bumps; an
invalidating patch of a running instance fails without saving; deleting an
existing (running) instance locally, modifying locally, and deleting through
the WebUI all save and bump. -/
theorem C7_mutations_save_and_bump_witness :
    ((webuiPatch [("a", ⟨[], false⟩)] ⟨none, 5⟩ "a" [] true).2.2).configVersion
      = 6 ∧
    (webuiPatch [("a", ⟨[("t", .str "X"), ("N", .bool true)], true⟩)] ⟨none, 5⟩
      "a" [("t", .str "")] true).2.2 = ⟨none, 5⟩ ∧
    ((webuiDelete [("a", ⟨[], false⟩)] ⟨none, 5⟩ "a").2.2).configVersion = 6 ∧
    ((localMod [("a", ⟨[], false⟩)] ⟨none, 5⟩ "a" []).2).configVersion = 6 ∧
    ((localDel [("a", ⟨[], true⟩)] ⟨none, 5⟩ "a").2).configVersion = 6 := by
  refine ⟨?_, ?_, ?_, ?_, ?_⟩
  · exact ((C7_mutations_save_and_bump.2.2.1
      [("a", ⟨[], false⟩)] ⟨none, 5⟩ "a" [] true).1 (by decide)).1
  · exact (C7_mutations_save_and_bump.2.2.1
      [("a", ⟨[("t", .str "X"), ("N", .bool true)], true⟩)] ⟨none, 5⟩
      "a" [("t", .str "")] true).2 (by decide)
  · exact (C7_mutations_save_and_bump.2.2.2.1
      [("a", ⟨[], false⟩)] ⟨none, 5⟩ "a" ⟨[], false⟩ (by decide)).1
  · exact ((C7_mutations_save_and_bump.2.2.2.2.1
      [("a", ⟨[], false⟩)] ⟨none, 5⟩ "a" [] ⟨[], false⟩).2.2 (by decide)).1
  · exact (C7_mutations_save_and_bump.2.2.2.2.2.1
      [("a", ⟨[], true⟩)] ⟨none, 5⟩ "a").1

end Vingester
